import Mathlib

/-!
# Buffered bulk load and statement helpers of `pkg/lib`

A shallow embedding of

* `pkg/lib/sqlserver/loaddata.go`: `loadDataInsert`, `DB.LoadDataInsert`,
  `DB.flushLoadDataToDisk`, `DB.flushLoadData`, `newLoadDataInsert`;
* `generatePlaceholders` of `pkg/lib/sqlserver/sqlserver.go` and of
  `pkg/lib/oracle/oracle.go`, and the `DB` that `Open` returns;
* the part of `OpenPostgres` and of `OpenOracle` that reads the connection
  string.

The functions of Go's standard library that the code calls (`fmt.Sprint`,
`filepath.Join`, `strings.Replace`, `strings.Split`, `strings.TrimPrefix`,
`os.Stat`, `os.Create`, `os.OpenFile`, `os.MkdirAll`, `os.Remove`,
`bufio.Writer`) are modelled in the namespace
`golib` after their documentation, the paths in the Unix flavour.

Go code that mutates a `*loadDataInsert` held in the map `d.loadDataInserts`
becomes a function that returns the updated record, which the caller stores
back under the same key; the file system and the database session are an
explicit `World`, and every call of the standard library that can fail takes its
outcome from an `Env`, so that each `if err != nil` branch of the source is a
branch of the embedding.  Machine integers are natural numbers, reduced modulo
`2 ^ 64` where the source increments a `uint`.
-/

namespace golib

/-! ## Values and their default text -/

/-- The message carried by a Go `error` value. -/
abbrev Err := String

/-- Bind parameters, passed in the source as `interface{}`. -/
inductive Value where
  | str (s : String)
  | int (i : Int)
  | bool (b : Bool)
  | nil
  deriving DecidableEq, Repr

/-- The text `fmt.Sprint` gives for one operand: a string is written as it is,
an integer in decimal, a boolean as `true` or `false`, the nil interface as
`<nil>`. -/
def fmtSprint : Value → String
  | .str s => s
  | .int i => toString i
  | .bool true => "true"
  | .bool false => "false"
  | .nil => "<nil>"

/-! ## Paths: `path/filepath` in its Unix flavour -/

/-- One step of `filepath.Clean` over the path elements kept so far: an empty
element and `.` are dropped, `..` removes the element before it when there is
one that is not itself `..`, is dropped at the root of a rooted path, and is kept
otherwise; every other element is kept. -/
def cleanStep (rooted : Bool) (kept : List (List Char)) (e : List Char) : List (List Char) :=
  if e = [] ∨ e = ['.'] then kept
  else if e = ['.', '.'] then
    match kept.getLast? with
    | none => if rooted then kept else kept ++ [e]
    | some top => if top = ['.', '.'] then kept ++ [e] else kept.dropLast
  else kept ++ [e]

/-- The result of `filepath.Clean` put together from the elements that are kept. -/
def cleanRender (rooted : Bool) (kept : List (List Char)) : List Char :=
  if rooted then '/' :: ['/'].intercalate kept
  else if kept = [] then ['.'] else ['/'].intercalate kept

/-- Go's `filepath.Clean` with `/` as separator: the shortest path name that is
lexically equivalent to `path`. -/
def filepathClean (path : String) : String :=
  if path.data = [] then "."
  else
    let rooted := path.data.head? = some '/'
    ⟨cleanRender rooted ((path.data.splitOn '/').foldl (cleanStep rooted) [])⟩

/-- Go's `filepath.Join`: leading empty elements are ignored, the rest is joined
with the separator and the result is cleaned. -/
def filepathJoin (elem : List String) : String :=
  match elem.dropWhile (fun e => e.data = []) with
  | [] => ""
  | es => filepathClean ("/".intercalate es)

/-- The elements `filepath.Clean` keeps of a path. -/
def cleanKept (q : List Char) : List (List Char) :=
  (q.splitOn '/').foldl (cleanStep (q.head? = some '/')) []

/-- The elements of `Join(current_dir, "data")` before cleaning, joined. -/
def joinedDataDir (current_dir : String) : List Char :=
  if current_dir.data = [] then "data".data else current_dir.data ++ '/' :: "data".data

/-! ## Strings -/

/-- Worker of `stringsReplace`: `skip` counts the characters of a matched
occurrence of `old` that are still to be passed over, `n` the replacements that
are still allowed (a negative number allows all). -/
def replaceFrom (old new : List Char) : List Char → Nat → Int → List Char
  | [], _, _ => []
  | _ :: cs, skip + 1, n => replaceFrom old new cs skip n
  | c :: cs, 0, n =>
    if n ≠ 0 ∧ old.isPrefixOf (c :: cs) = true then
      new ++ replaceFrom old new cs (old.length - 1) (n - 1)
    else c :: replaceFrom old new cs 0 n

/-- Go's `strings.Replace(s, old, new, n)` for a non-empty `old`: the first `n`
non-overlapping occurrences of `old` are replaced by `new`, all of them when
`n < 0`. -/
def stringsReplace (s old new : String) (n : Int) : String :=
  ⟨replaceFrom old.data new.data s.data 0 n⟩

/-- Go's `strings.Split(s, sep)` for a separator of one character: the
substrings of `s` between the occurrences of `sep`, in order; a string without
`sep` (the empty string too) gives the one-element list of itself. -/
def stringsSplit (s : String) (sep : Char) : List String :=
  (s.data.splitOn sep).map String.mk

/-- Go's `strings.TrimPrefix(s, lead)`: `s` without the leading `lead`, and `s`
itself when it does not start with `lead`. -/
def stringsTrimLead (s lead : String) : String :=
  if lead.data.isPrefixOf s.data = true then ⟨s.data.drop lead.data.length⟩ else s

/-! ## The file system and the database session -/

/-- What a path names: a regular file with its content, or a directory. -/
inductive Node where
  | file (content : String)
  | dir
  deriving DecidableEq, Repr

/-- The part of `os.FileInfo` the source reads. -/
structure FileInfo where
  isDir : Bool
  deriving DecidableEq, Repr

/-- The failure of `os.Stat`: nothing at the path (`os.IsNotExist`), or any
other error. -/
inductive StatError where
  | notExist
  | other (e : Err)
  deriving DecidableEq, Repr

/-- The outcomes the code cannot decide: the failures of the standard library
and of the database session, and the platform.

* `args0Dir` is the result of `filepath.Abs(filepath.Dir(os.Args[0]))`;
* `statErr`, `mkdirAllErr`, `createErr`, `openErr`, `removeErr` give, for each
  path, the error with which the call fails there, if it does;
* `execErr` gives the error with which the session rejects a statement;
* `appendOnlyWritable` says whether a file opened with the flag `os.O_APPEND`
  alone accepts writes.  The access mode of such a descriptor is `os.O_RDONLY`
  (the value `0`), and on Unix every write to it fails with `EBADF`. -/
structure Env where
  args0Dir : Except Err String
  statErr : String → Option Err
  mkdirAllErr : String → Option Err
  createErr : String → Option Err
  openErr : String → Option Err
  removeErr : String → Option Err
  execErr : String → Option Err
  appendOnlyWritable : Bool

/-- The state outside the process: the file system, and the statements the
database session has been given, each with the file system as it stood when the
statement was given. -/
structure World where
  nodes : String → Option Node
  execLog : List (String × (String → Option Node))

/-- The world with `node` at `path`. -/
def World.put (w : World) (path : String) (node : Option Node) : World :=
  { w with nodes := fun p => if p = path then node else w.nodes p }

/-- An open file: its path and whether the descriptor accepts writes. -/
structure File where
  path : String
  writable : Bool
  deriving DecidableEq, Repr

/-- Go's `os.Stat`; the empty path names nothing. -/
def osStat (env : Env) (w : World) (path : String) : Except StatError FileInfo :=
  if path = "" then .error .notExist
  else
    match env.statErr path with
    | some e => .error (.other e)
    | none =>
      match w.nodes path with
      | none => .error .notExist
      | some .dir => .ok ⟨true⟩
      | some (.file _) => .ok ⟨false⟩

/-- Go's `os.MkdirAll`: on success the path is a directory. -/
def osMkdirAll (env : Env) (w : World) (path : String) : Option Err × World :=
  match env.mkdirAllErr path with
  | some e => (some e, w)
  | none => (none, w.put path (some .dir))

/-- Go's `os.Create`: the file is created or truncated and opened for reading
and writing; no file can be created at the empty path. -/
def osCreate (env : Env) (w : World) (path : String) : Except Err (File × World) :=
  if path = "" then .error "open : no such file or directory"
  else
    match env.createErr path with
    | some e => .error e
    | none => .ok (⟨path, true⟩, w.put path (some (.file "")))

/-- The flag `os.O_APPEND` (`0x400`); the access modes `os.O_RDONLY`,
`os.O_WRONLY`, `os.O_RDWR` are `0`, `1`, `2`. -/
def O_APPEND : Nat := 1024

/-- Go's `os.OpenFile` for flags without `os.O_CREATE` and `os.O_TRUNC`: the
file must exist, and the descriptor accepts writes when the access mode in the
two low bits of `flag` is `os.O_WRONLY` or `os.O_RDWR`, or when `os.O_APPEND` is
set on a platform where that flag alone grants them. -/
def osOpenFile (env : Env) (w : World) (path : String) (flag : Nat) : Except Err (File × World) :=
  if path = "" then .error "open : no such file or directory"
  else
    match env.openErr path with
    | some e => .error e
    | none =>
      match w.nodes path with
      | none => .error ("open " ++ path ++ ": no such file or directory")
      | some _ =>
        .ok (⟨path,
          flag % 4 = 1 ∨ flag % 4 = 2 ∨ (flag / O_APPEND % 2 = 1 ∧ env.appendOnlyWritable)⟩, w)

/-- What reaches the file when `text` is written through a `bufio.Writer` on `f`
and the writer is flushed, the errors of the writes being ignored as the source
ignores them: `text` is added at the end of a regular file whose descriptor
accepts writes, and nothing happens otherwise. -/
def fileWrite (f : File) (text : String) (w : World) : World :=
  match w.nodes f.path with
  | some (.file content) => if f.writable then w.put f.path (some (.file (content ++ text))) else w
  | _ => w

/-- Go's `os.Remove`. -/
def osRemove (env : Env) (w : World) (path : String) : Option Err × World :=
  if path = "" then (some "remove : no such file or directory", w)
  else
    match env.removeErr path with
    | some e => (some e, w)
    | none =>
      match w.nodes path with
      | none => (some ("remove " ++ path ++ ": no such file or directory"), w)
      | some _ => (none, w.put path none)

/-- The method `Exec` of the embedded `*sql.DB`: the statement is recorded with
the file system it can read, and the session accepts or rejects it. -/
def dbExec (env : Env) (w : World) (query : String) : Option Err × World :=
  (env.execErr query, { w with execLog := w.execLog ++ [(query, w.nodes)] })

end golib

namespace sqlserver

open golib

/-! ## `loaddata.go` -/

/-- The struct `loadDataInsert` (lines 12-18). -/
structure loadDataInsert where
  table : String
  dataFilePath : String
  insertCtr : Nat
  columnCount : Nat
  bindParams : List Value
  deriving DecidableEq, Repr

/-- The function `newLoadDataInsert` (lines 135-139): every field has its zero
value. -/
def newLoadDataInsert : loadDataInsert :=
  { table := "", dataFilePath := "", insertCtr := 0, columnCount := 0, bindParams := [] }

/-- The fields of `DB` that `loaddata.go` uses. -/
structure DB where
  flushInterval : Nat
  loadDataInserts : String → Option loadDataInsert

/-- The assignment `d.loadDataInserts[table] = e`, and every write through the
pointer stored there. -/
def DB.store (d : DB) (table : String) (e : loadDataInsert) : DB :=
  { d with loadDataInserts := fun k => if k = table then some e else d.loadDataInserts k }

/-- The loop of `flushLoadDataToDisk` (lines 79-95): the text handed to the
writer for the values that remain, `col` being the loop's column counter and
`out` the text written so far. -/
def writeParams (columnCount : Nat) : List Value → Nat → String → String
  | [], _, out => out
  | insert_data :: rest, col, out =>
    let out := out ++ fmtSprint insert_data ++ "\t"
    if col + 1 = columnCount then writeParams columnCount rest 0 (out ++ "\n")
    else writeParams columnCount rest (col + 1) out

/-- Lines 79-104 of `flushLoadDataToDisk`, once the file is open: the buffered
values are written, the writer is flushed, the buffer and the counter are
reset, and the function returns its named result `err`, which nothing has
assigned. -/
def flushLoadDataToDisk.write (f : File) (w : World) (inp : loadDataInsert) :
    Option Err × World × loadDataInsert :=
  (none, fileWrite f (writeParams inp.columnCount inp.bindParams 0 "") w,
    { inp with bindParams := [], insertCtr := 0 })

/-- The method `DB.flushLoadDataToDisk` (lines 63-105). -/
def flushLoadDataToDisk (env : Env) (w : World) (inp : loadDataInsert) :
    Option Err × World × loadDataInsert :=
  match osStat env w inp.dataFilePath with
  | .error _ =>
    match osCreate env w inp.dataFilePath with
    | .error err => (some err, w, inp)
    | .ok (f, w1) => flushLoadDataToDisk.write f w1 inp
  | .ok _ =>
    match osOpenFile env w inp.dataFilePath O_APPEND with
    | .error err => (some err, w, inp)
    | .ok (f, w1) => flushLoadDataToDisk.write f w1 inp

/-- The statement built at line 118. -/
def loadQuery (inp : loadDataInsert) : String :=
  "LOAD DATA CONCURRENT LOCAL INFILE '" ++ stringsReplace inp.dataFilePath "\\" "\\\\" 20
    ++ "' INTO TABLE " ++ inp.table

/-- The method `DB.flushLoadData` (lines 107-133). -/
def flushLoadData (env : Env) (w : World) (inp : loadDataInsert) :
    Option Err × World × loadDataInsert :=
  let flushed := if inp.insertCtr > 0 then flushLoadDataToDisk env w inp else (none, w, inp)
  match flushed with
  | (some err, w1, in1) => (some err, w1, in1)
  | (none, w1, in1) =>
    match osStat env w1 in1.dataFilePath with
    | .error _ => (none, w1, in1)
    | .ok _ =>
      match dbExec env w1 (loadQuery in1) with
      | (some err, w2) => (some err, w2, in1)
      | (none, w2) =>
        match osRemove env w2 in1.dataFilePath with
        | (some err, w3) => (some err, w3, in1)
        | (none, w3) => (none, w3, in1)

/-- The directory of the staging files, `filepath.Join(current_dir, "data")`
(lines 34, 37 and 41). -/
def dataDir (current_dir : String) : String :=
  filepathJoin [current_dir, "data"]

/-- The staging file of a table (line 50):
`filepath.Join(current_dir, "data", fmt.Sprintf("%s.dat", table))`. -/
def stagingPath (current_dir table : String) : String :=
  filepathJoin [current_dir, "data", table ++ ".dat"]

/-- Lines 53-60 of `LoadDataInsert`: the row is counted and appended, and the
buffer is flushed to disk when the counter has reached `flushInterval`. -/
def LoadDataInsert.queue (env : Env) (table : String) (params : List Value) (w : World) (d : DB)
    (e : loadDataInsert) : Option Err × World × DB :=
  let e1 := { e with insertCtr := (e.insertCtr + 1) % 2 ^ 64, bindParams := e.bindParams ++ params }
  if e1.insertCtr ≥ d.flushInterval then
    match flushLoadDataToDisk env w e1 with
    | (err, w1, e2) => (err, w1, d.store table e2)
  else (none, w, d.store table e1)

/-- The method `DB.LoadDataInsert` (lines 20-61). -/
def LoadDataInsert (env : Env) (table : String) (params : List Value) (w : World) (d : DB) :
    Option Err × World × DB :=
  let e0 := (d.loadDataInserts table).getD newLoadDataInsert
  if e0.table = "" then
    let e1 := { e0 with table := table, columnCount := params.length }
    match env.args0Dir with
    | .error err => (some err, w, d.store table e1)
    | .ok current_dir =>
      let e2 := { e1 with dataFilePath := stagingPath current_dir table }
      match osStat env w (dataDir current_dir) with
      | .ok data_dir =>
        if data_dir.isDir then LoadDataInsert.queue env table params w d e2
        else (some (dataDir current_dir ++ " exists but it's not a directory\n"), w, d.store table e1)
      | .error .notExist =>
        match osMkdirAll env w (dataDir current_dir) with
        | (some err, w1) => (some err, w1, d.store table e1)
        | (none, w1) => LoadDataInsert.queue env table params w1 d e2
      | .error (.other err) => (some err, w, d.store table e1)
  else LoadDataInsert.queue env table params w d e0

/-! ## Runs of calls -/

/-- The state the calls act on: the world and the `DB`. -/
structure State where
  world : World
  db : DB

/-- The error that `LoadDataInsert(table, params...)` returns in a state. -/
def State.insertErr (env : Env) (s : State) (table : String) (params : List Value) : Option Err :=
  (LoadDataInsert env table params s.world s.db).1

/-- The state after `LoadDataInsert(table, params...)`. -/
def State.insert (env : Env) (s : State) (table : String) (params : List Value) : State :=
  ⟨(LoadDataInsert env table params s.world s.db).2.1,
    (LoadDataInsert env table params s.world s.db).2.2⟩

/-- The state after the calls `LoadDataInsert(table, row...)` for the rows, in
order. -/
def insertRows (env : Env) (table : String) : List (List Value) → State → State
  | [], s => s
  | row :: rest, s => insertRows env table rest (s.insert env table row)

/-- A call of the package on a `DB`: `LoadDataInsert` for a table, or one of
the two flushes on the record the map holds for a table. -/
inductive Op where
  | insert (table : String) (params : List Value)
  | load (table : String)
  | toDisk (table : String)

/-- The state after a call; a flush for a table without record is no call. -/
def State.step (env : Env) (s : State) : Op → State
  | .insert table params => s.insert env table params
  | .load table =>
    match s.db.loadDataInserts table with
    | none => s
    | some e => ⟨(flushLoadData env s.world e).2.1, s.db.store table (flushLoadData env s.world e).2.2⟩
  | .toDisk table =>
    match s.db.loadDataInserts table with
    | none => s
    | some e =>
      ⟨(flushLoadDataToDisk env s.world e).2.1,
        s.db.store table (flushLoadDataToDisk env s.world e).2.2⟩

/-- The state after a sequence of calls. -/
def State.run (env : Env) (s : State) (ops : List Op) : State :=
  ops.foldl (State.step env) s

/-- Every record carries the name of its table, has the width `width` gives for
the table, and a buffer whose length is a multiple of that width. -/
def widthInv (width : String → Nat) (s : State) : Prop :=
  ∀ t e, s.db.loadDataInserts t = some e →
    e.table = t ∧ e.columnCount = width t ∧ width t ∣ e.bindParams.length

/-- The error with which lines 34-48 of `LoadDataInsert` fail in a world, if
they do. -/
def dataDirErr (env : Env) (current_dir : String) (w : World) : Option Err :=
  match osStat env w (dataDir current_dir) with
  | .ok data_dir =>
    if data_dir.isDir then none
    else some (dataDir current_dir ++ " exists but it's not a directory\n")
  | .error .notExist => env.mkdirAllErr (dataDir current_dir)
  | .error (.other err) => some err

/-- What a state holds for one table: the flush interval, the record of the
table, the node at the path of its staging file, and the error with which the
data directory cannot be used. -/
def tableView (env : Env) (current_dir table : String) (s : State) :
    Nat × Option loadDataInsert × Option Node × Option Err :=
  (s.db.flushInterval, s.db.loadDataInserts table,
    s.world.nodes (stagingPath current_dir table), dataDirErr env current_dir s.world)

/-- The name has no path separator. -/
def plainName (table : String) : Prop :=
  ∀ ch ∈ table.data, ch ≠ '/'

/-- Every record has the empty path or the path of the staging file of its
table. -/
def pathsOwn (current_dir : String) (d : DB) : Prop :=
  ∀ k e, d.loadDataInserts k = some e →
    e.dataFilePath = "" ∨ e.dataFilePath = stagingPath current_dir k

/-- The state after the calls `LoadDataInsert(table, params...)` of a list, in
order. -/
def insertCalls (env : Env) : List (String × List Value) → State → State
  | [], s => s
  | call :: rest, s => insertCalls env rest (s.insert env call.1 call.2)

/-- The data directory can be used: the directory of the executable is known,
`os.Stat` does not fail on the data directory for another reason than its
absence, and the directory exists or can be made. -/
def dirReady (env : Env) (current_dir : String) (w : World) : Prop :=
  env.args0Dir = .ok current_dir ∧ env.statErr (dataDir current_dir) = none ∧
    (w.nodes (dataDir current_dir) = some .dir ∨
      (w.nodes (dataDir current_dir) = none ∧ env.mkdirAllErr (dataDir current_dir) = none))

/-- What a state holds for one table: the data directory can be used, the flush
interval is `N`, `node` is at the path of the staging file, and the table either
has no `loadDataInsert` yet (`j = 0`, `buf = []`) or one with the counter `j`, the
width `c` and the buffer `buf`. -/
def tableAt (env : Env) (current_dir table : String) (N c j : Nat) (buf : List Value)
    (node : Option Node) (s : State) : Prop :=
  dirReady env current_dir s.world ∧ s.db.flushInterval = N ∧
    s.world.nodes (stagingPath current_dir table) = node ∧
    ((s.db.loadDataInserts table = none ∧ j = 0 ∧ buf = []) ∨
      s.db.loadDataInserts table =
        some { table := table, dataFilePath := stagingPath current_dir table, insertCtr := j,
               columnCount := c, bindParams := buf })

/-- The `DB` that `Open` returns (`sqlserver.go`, lines 224-232): the flush
interval it is given and an empty map. -/
def Open (flushInterval : Nat) : DB :=
  { flushInterval := flushInterval, loadDataInserts := fun _ => none }

/-- A file system with nothing in it and a session that has been given no
statement. -/
def emptyWorld : World :=
  { nodes := fun _ => none, execLog := [] }

/-- An environment in which the executable lies in `/srv/app` and no call of
the standard library or of the session fails; `writable` is its
`appendOnlyWritable`. -/
def quietEnv (writable : Bool) : Env where
  args0Dir := .ok "/srv/app"
  statErr := fun _ => none
  mkdirAllErr := fun _ => none
  createErr := fun _ => none
  openErr := fun _ => none
  removeErr := fun _ => none
  execErr := fun _ => none
  appendOnlyWritable := writable

/-- The environment `quietEnv writable`, except that the session rejects every
statement. -/
def rejectingEnv (writable : Bool) : Env :=
  { quietEnv writable with execErr := fun _ => some "statement rejected" }

/-- The state after three rows of width 2 have been queued for the table `t`
with the flush interval 2, on Unix, in an empty file system: the first two rows
are in the staging file, the third is in the buffer. -/
def thirdRowPending : State :=
  insertRows (quietEnv false) "t" [[.str "a", .int 1], [.str "b", .int 2], [.str "c", .int 3]]
    ⟨emptyWorld, Open 2⟩

/-- The record of the table `t` in `thirdRowPending`. -/
def thirdRowRecord : loadDataInsert :=
  ((thirdRowPending.db.loadDataInserts "t").getD newLoadDataInsert)

/-- What a statement of the log could read at a path: the statement, and the
node at the path when the statement was given. -/
def seenAt (path : String) (log : List (String × (String → Option Node))) :
    List (String × Option Node) :=
  log.map (fun q => (q.1, q.2 path))

/-- The text with every backslash replaced by two backslashes. -/
def escapeBackslashes (p : String) : String :=
  ⟨p.data.flatMap (fun ch => if ch = '\\' then ['\\', '\\'] else [ch])⟩

/-- The load statement as the specification words it: the path with every
backslash doubled, between the fixed parts, and the table. -/
def specLoadQuery (p t : String) : String :=
  "LOAD DATA CONCURRENT LOCAL INFILE '" ++ escapeBackslashes p ++ "' INTO TABLE " ++ t

/-- A path with 21 backslashes: `C:`, twenty directories `\d`, and the file
`\t.dat`. -/
def deepPath : String :=
  "C:" ++ (List.replicate 20 "\\d").foldr (fun s acc => s ++ acc) "" ++ "\\t.dat"

/-! ## The text of the staging file -/

/-- The text of one row in the staging file: each value in its default text,
followed by a tab, and a newline after the last tab. -/
def rowText (row : List Value) : String :=
  (row.map (fun v => fmtSprint v ++ "\t")).foldr (fun s acc => s ++ acc) "" ++ "\n"

/-- The text of a sequence of rows, in order. -/
def rowsText (rows : List (List Value)) : String :=
  (rows.map rowText).foldr (fun s acc => s ++ acc) ""

/-! ## `sqlserver.go` -/

/-- The function `generatePlaceholders` (lines 177-184).  The result is `none`
when the slice expression `placeholders[:len(placeholders)-1]` is out of range,
where the Go program panics. -/
def generatePlaceholders (n : Int) : Option String :=
  let placeholders :=
    (List.range n.toNat).foldl (fun acc k => acc ++ ("$" ++ toString (Int.ofNat k + 1) ++ ",")) ""
  if placeholders.data.length = 0 then none
  else some ("(" ++ String.mk placeholders.data.dropLast ++ ")")

/-- The placeholders `$1` to `$n` in increasing order, separated by commas. -/
def placeholderList (n : Nat) : String :=
  ",".intercalate ((List.range' 1 n).map (fun i => "$" ++ toString i))

/-- The struct `Myconnection` (lines 27-34). -/
structure Myconnection where
  ip_address : String
  port : String
  user_name : String
  ro_password : String
  rw_password : String
  database : String
  deriving DecidableEq, Repr

/-- Lines 236-254 of `OpenPostgres`, the part that reads the connection string:
the error it returns, or the `Myconnection` it has filled when it goes on to
decrypt the password and open the database.  The result is `none` when an index
expression `dbFields[i]` is out of range, where the Go program panics. -/
def OpenPostgres.connection (connection_string : String) : Option (Except Err Myconnection) :=
  let dbFields := stringsSplit connection_string ','
  if dbFields.length < 4 then some (.error "invalid connection string format")
  else do
    let ip_address := stringsTrimLead (← dbFields[0]?) "dbconnect="
    let port ← dbFields[1]?
    let database ← dbFields[2]?
    let user_name ← dbFields[3]?
    let ro_password ← dbFields[4]?
    if connection_string = "" then some (.error "Not Found Connection ")
    else
      some (.ok { ip_address := ip_address, port := port, user_name := user_name,
                  ro_password := ro_password, rw_password := "", database := database })

end sqlserver

namespace oracle

open golib

/-- The struct `Myconnection` of `oracle.go` (lines 27-34). -/
structure Myconnection where
  ip_address : String
  port : String
  user_name : String
  ro_password : String
  rw_password : String
  database : String
  deriving DecidableEq, Repr

/-- Lines 234-252 of `OpenOracle`, the part that reads the connection string:
the error it returns, or the `Myconnection` it has filled when it goes on to
decrypt the password and open the database.  The result is `none` when an index
expression `dbFields[i]` is out of range, where the Go program panics. -/
def OpenOracle.connection (connection_string : String) : Option (Except Err Myconnection) :=
  let dbFields := stringsSplit connection_string ','
  if dbFields.length < 4 then some (.error "invalid connection string format")
  else do
    let ip_address := stringsTrimLead (← dbFields[0]?) "dbconnect="
    let port ← dbFields[1]?
    let database ← dbFields[2]?
    let user_name ← dbFields[3]?
    let ro_password ← dbFields[4]?
    if connection_string = "" then some (.error "Not Found Connection ")
    else
      some (.ok { ip_address := ip_address, port := port, user_name := user_name,
                  ro_password := ro_password, rw_password := "", database := database })

/-- The function `generatePlaceholders` of `oracle.go` (lines 176-183).  The
result is `none` when the slice expression is out of range, where the Go program
panics. -/
def generatePlaceholders (n : Int) : Option String :=
  let placeholders :=
    (List.range n.toNat).foldl (fun acc k => acc ++ ("$" ++ toString (Int.ofNat k + 1) ++ ",")) ""
  if placeholders.data.length = 0 then none
  else some ("(" ++ String.mk placeholders.data.dropLast ++ ")")

end oracle

namespace golib

/-! ## Lemmas on paths -/

theorem splitOn_cons_sep (xs : List Char) :
    ('/' :: xs).splitOn '/' = [] :: xs.splitOn '/' := by
  simp [List.splitOn, List.splitOnP_cons]

theorem splitOn_cons_other (x : Char) (xs : List Char) (hx : x ≠ '/') :
    (x :: xs).splitOn '/' = (xs.splitOn '/').modifyHead (List.cons x) := by
  simp [List.splitOn, List.splitOnP_cons, hx]

theorem splitOn_ne_nil (xs : List Char) : xs.splitOn '/' ≠ [] := by
  simp [List.splitOn, List.splitOnP_ne_nil]

theorem splitOn_sep_free (xs : List Char) (h : ∀ c ∈ xs, c ≠ '/') : xs.splitOn '/' = [xs] := by
  unfold List.splitOn
  apply List.splitOnP_eq_single
  intro c hc
  simpa using h c hc

theorem splitOn_append_sep (xs ys : List Char) :
    (xs ++ '/' :: ys).splitOn '/' = xs.splitOn '/' ++ ys.splitOn '/' := by
  induction xs with
  | nil => simp [splitOn_cons_sep, List.splitOn, List.splitOnP_nil]
  | cons x xs ih =>
    by_cases hx : x = '/'
    · subst hx
      simp [splitOn_cons_sep, ih]
    · rw [List.cons_append, splitOn_cons_other _ _ hx, splitOn_cons_other _ _ hx, ih]
      cases h : xs.splitOn '/' with
      | nil => exact absurd h (splitOn_ne_nil xs)
      | cons a as => simp [List.modifyHead]

theorem splitOn_append_sep_free (xs zs : List Char) (hz : ∀ c ∈ zs, c ≠ '/') :
    ∃ init l, xs.splitOn '/' = init ++ [l] ∧ (xs ++ zs).splitOn '/' = init ++ [l ++ zs] := by
  induction xs with
  | nil =>
    refine ⟨[], [], ?_, ?_⟩
    · simp [List.splitOn, List.splitOnP_nil]
    · simpa using splitOn_sep_free zs hz
  | cons x xs ih =>
    obtain ⟨init, l, h1, h2⟩ := ih
    by_cases hx : x = '/'
    · subst hx
      refine ⟨[] :: init, l, ?_, ?_⟩
      · simp [splitOn_cons_sep, h1]
      · simp [splitOn_cons_sep, h2]
    · rw [List.cons_append, splitOn_cons_other _ _ hx, splitOn_cons_other _ _ hx, h1, h2]
      cases init with
      | nil => exact ⟨[], x :: l, by simp [List.modifyHead], by simp [List.modifyHead]⟩
      | cons a as => exact ⟨(x :: a) :: as, l, by simp [List.modifyHead], by simp [List.modifyHead]⟩

theorem intercalate_concat (K : List (List Char)) (x : List Char) (hK : K ≠ []) :
    ['/'].intercalate (K ++ [x]) = ['/'].intercalate K ++ '/' :: x := by
  induction K with
  | nil => exact absurd rfl hK
  | cons a as ih =>
    cases as with
    | nil => simp [List.intercalate, List.intersperse]
    | cons b bs =>
      have := ih (by simp)
      simp [List.intercalate, List.intersperse] at this ⊢
      exact this

/-- An element that is neither empty, `.` nor `..` is kept by `cleanStep`. -/
theorem cleanStep_real (rooted : Bool) (kept : List (List Char)) (e : List Char)
    (h0 : e ≠ []) (h1 : e ≠ ['.']) (h2 : e ≠ ['.', '.']) :
    cleanStep rooted kept e = kept ++ [e] := by
  simp [cleanStep, h0, h1, h2]

theorem cleanRender_concat (rooted : Bool) (K : List (List Char)) (x : List Char) (hK : K ≠ []) :
    cleanRender rooted (K ++ [x]) = cleanRender rooted K ++ '/' :: x := by
  unfold cleanRender
  cases rooted <;> simp [hK, intercalate_concat K x hK]

theorem cleanRender_ends (rooted : Bool) (K : List (List Char)) (x : List Char) :
    ∃ Z, cleanRender rooted (K ++ [x]) = Z ++ x := by
  by_cases hK : K = []
  · subst hK
    cases rooted
    · exact ⟨[], by simp [cleanRender, List.intercalate, List.intersperse]⟩
    · exact ⟨['/'], by simp [cleanRender, List.intercalate, List.intersperse]⟩
  · exact ⟨cleanRender rooted K ++ ['/'], by simp [cleanRender_concat rooted K x hK]⟩


theorem joinedDataDir_ne_nil (cur : String) : joinedDataDir cur ≠ [] := by
  unfold joinedDataDir
  split <;> simp

theorem filepathJoin_dataDir (cur : String) :
    filepathJoin [cur, "data"] = filepathClean ⟨joinedDataDir cur⟩ := by
  unfold filepathJoin joinedDataDir
  by_cases h : cur.data = []
  · simp [h, List.dropWhile, String.intercalate, String.intercalate.go]
  · simp [h, List.dropWhile, String.intercalate, String.intercalate.go]
    congr 1
    apply String.ext
    simp [String.data_append]

theorem filepathJoin_stagingPath (cur name : String) :
    filepathJoin [cur, "data", name] = filepathClean ⟨joinedDataDir cur ++ '/' :: name.data⟩ := by
  unfold filepathJoin joinedDataDir
  by_cases h : cur.data = []
  · simp [h, List.dropWhile, String.intercalate, String.intercalate.go]
    congr 1
  · simp [h, List.dropWhile, String.intercalate, String.intercalate.go]
    congr 1
    apply String.ext
    simp [String.data_append]


theorem filepathClean_data (q : List Char) (hq : q ≠ []) :
    (filepathClean ⟨q⟩).data = cleanRender (q.head? = some '/') (cleanKept q) := by
  simp [filepathClean, hq, cleanKept]

theorem head?_append_left (q r : List Char) (hq : q ≠ []) : (q ++ r).head? = q.head? := by
  cases q with
  | nil => exact absurd rfl hq
  | cons a as => rfl

/-- A last element that is neither empty, `.` nor `..` is the last element kept. -/
theorem cleanKept_append_last (q zs : List Char) (hq : q ≠ []) (hz : ∀ c ∈ zs, c ≠ '/')
    (h : ∀ l : List Char, l ++ zs ≠ [] ∧ l ++ zs ≠ ['.'] ∧ l ++ zs ≠ ['.', '.']) :
    ∃ K l, cleanKept (q ++ zs) = K ++ [l ++ zs] := by
  obtain ⟨init, l, _, h2⟩ := splitOn_append_sep_free q zs hz
  refine ⟨init.foldl (cleanStep (q.head? = some '/')) [], l, ?_⟩
  unfold cleanKept
  rw [h2, List.foldl_append, head?_append_left q zs hq]
  simp only [List.foldl_cons, List.foldl_nil]
  exact cleanStep_real _ _ _ (h l).1 (h l).2.1 (h l).2.2

/-- After a non-empty path and a separator, an element without separator that is
neither empty, `.` nor `..` is added to the elements kept. -/
theorem cleanKept_append_element (q x : List Char) (hq : q ≠ []) (hx : ∀ c ∈ x, c ≠ '/')
    (h0 : x ≠ []) (h1 : x ≠ ['.']) (h2 : x ≠ ['.', '.']) :
    cleanKept (q ++ '/' :: x) = cleanKept q ++ [x] := by
  unfold cleanKept
  rw [splitOn_append_sep, splitOn_sep_free x hx, List.foldl_append, head?_append_left q _ hq]
  simp only [List.foldl_cons, List.foldl_nil]
  exact cleanStep_real _ _ _ h0 h1 h2

theorem cleanKept_joinedDataDir (cur : String) :
    ∃ K, cleanKept (joinedDataDir cur) = K ++ ["data".data] := by
  unfold joinedDataDir
  by_cases h : cur.data = []
  · refine ⟨[], ?_⟩
    simp only [h, if_true]
    decide
  · simp only [h, if_false]
    exact ⟨cleanKept cur.data, cleanKept_append_element cur.data "data".data h (by decide)
      (by decide) (by decide) (by decide)⟩

end golib

namespace sqlserver
open golib

theorem dataDir_data (cur : String) :
    (dataDir cur).data = cleanRender ((joinedDataDir cur).head? = some '/') (cleanKept (joinedDataDir cur)) := by
  unfold dataDir
  rw [filepathJoin_dataDir, filepathClean_data _ (joinedDataDir_ne_nil cur)]

/-- The staging file of a table whose name has no separator lies in the data
directory under the table's name with the extension `.dat`. -/
theorem stagingPath_plain (cur table : String) (h : ∀ c ∈ table.data, c ≠ '/') :
    stagingPath cur table = dataDir cur ++ "/" ++ table ++ ".dat" := by
  apply String.ext
  obtain ⟨K, hK⟩ := cleanKept_joinedDataDir cur
  have hq := joinedDataDir_ne_nil cur
  have hx : ∀ c ∈ (table ++ ".dat").data, c ≠ '/' := by
    intro c hc
    simp only [String.data_append, List.mem_append] at hc
    rcases hc with hc | hc
    · exact h c hc
    · revert c
      decide
  have hlen : 4 ≤ (table ++ ".dat").data.length := by
    simp [String.data_append]
  have h0 : (table ++ ".dat").data ≠ [] := by
    intro e; rw [e] at hlen; simp at hlen
  have h1 : (table ++ ".dat").data ≠ ['.'] := by
    intro e; rw [e] at hlen; simp at hlen
  have h2 : (table ++ ".dat").data ≠ ['.', '.'] := by
    intro e; rw [e] at hlen; simp at hlen
  unfold stagingPath
  rw [filepathJoin_stagingPath, filepathClean_data _ (by simp [hq]),
    head?_append_left _ _ hq, cleanKept_append_element _ _ hq hx h0 h1 h2,
    cleanRender_concat _ _ _ (by rw [hK]; simp)]
  simp only [String.data_append, dataDir_data]
  simp


/-- The path of every staging file ends in `.dat`. -/
theorem stagingPath_ends (cur table : String) :
    ∃ Z, (stagingPath cur table).data = Z ++ ".dat".data := by
  have hq := joinedDataDir_ne_nil cur
  have hne : joinedDataDir cur ++ '/' :: table.data ≠ [] := by simp [hq]
  have h : ∀ l : List Char, l ++ ".dat".data ≠ [] ∧ l ++ ".dat".data ≠ ['.'] ∧
      l ++ ".dat".data ≠ ['.', '.'] := by
    intro l
    have hlen : 4 ≤ (l ++ ".dat".data).length := by simp
    refine ⟨?_, ?_, ?_⟩ <;> intro e <;> rw [e] at hlen <;> simp at hlen
  obtain ⟨K, l, hK⟩ := cleanKept_append_last _ ".dat".data hne (by decide) h
  obtain ⟨Z, hZ⟩ := cleanRender_ends
    ((joinedDataDir cur ++ '/' :: (table ++ ".dat").data).head? = some '/') K (l ++ ".dat".data)
  refine ⟨Z ++ l, ?_⟩
  unfold stagingPath
  rw [filepathJoin_stagingPath, filepathClean_data _ (by simp [hq])]
  have e : joinedDataDir cur ++ '/' :: (table ++ ".dat").data =
      (joinedDataDir cur ++ '/' :: table.data) ++ ".dat".data := by
    simp [String.data_append]
  rw [e] at hZ ⊢
  rw [hK, hZ]
  simp

/-- The path of the data directory ends in `data`. -/
theorem dataDir_ends (cur : String) : ∃ Z, (dataDir cur).data = Z ++ "data".data := by
  obtain ⟨K, hK⟩ := cleanKept_joinedDataDir cur
  obtain ⟨Z, hZ⟩ := cleanRender_ends ((joinedDataDir cur).head? = some '/') K "data".data
  exact ⟨Z, by rw [dataDir_data, hK, hZ]⟩

/-- No staging file is the data directory. -/
theorem stagingPath_ne_dataDir (cur table : String) : stagingPath cur table ≠ dataDir cur := by
  intro e
  obtain ⟨Z, hZ⟩ := stagingPath_ends cur table
  obtain ⟨Y, hY⟩ := dataDir_ends cur
  rw [e, hY] at hZ
  have := congrArg List.getLast? hZ
  simp [List.getLast?_append] at this

/-- No staging file has the empty path. -/
theorem stagingPath_ne_empty (cur table : String) : stagingPath cur table ≠ "" := by
  intro e
  obtain ⟨Z, hZ⟩ := stagingPath_ends cur table
  rw [e] at hZ
  have := congrArg List.length hZ
  simp at this

/-- Tables with different names without separator have different staging files. -/
theorem stagingPath_injective (cur a b : String) (ha : ∀ c ∈ a.data, c ≠ '/')
    (hb : ∀ c ∈ b.data, c ≠ '/') (hab : a ≠ b) : stagingPath cur a ≠ stagingPath cur b := by
  rw [stagingPath_plain cur a ha, stagingPath_plain cur b hb]
  intro e
  apply hab
  have := congrArg String.data e
  simp only [String.data_append, List.append_assoc] at this
  have := List.append_cancel_left this
  have := List.append_cancel_left this
  have := List.append_cancel_right this
  exact String.ext this


/-! ## The loop of `flushLoadDataToDisk` -/

theorem rowsText_append (r1 r2 : List (List Value)) :
    rowsText (r1 ++ r2) = rowsText r1 ++ rowsText r2 := by
  induction r1 with
  | nil => simp [rowsText]
  | cons a as ih =>
    simp only [rowsText, List.cons_append, List.map_cons, List.foldr_cons] at ih ⊢
    rw [ih, String.append_assoc]

/-- The loop inside a row: the values that complete the row are written, each
followed by a tab, then a newline, and the column counter is back at zero. -/
theorem writeParams_row (c : Nat) (row rest : List Value) (col : Nat) (out : String)
    (hrow : row ≠ []) (hc : col + row.length = c) :
    writeParams c (row ++ rest) col out =
      writeParams c rest 0 (out ++ ((row.map (fun v => fmtSprint v ++ "\t")).foldr
        (fun s acc => s ++ acc) "" ++ "\n")) := by
  induction row generalizing col out with
  | nil => exact absurd rfl hrow
  | cons v vs ih =>
    by_cases hvs : vs = []
    · subst hvs
      simp only [List.length_singleton] at hc
      simp [writeParams, hc, String.append_assoc]
    · have hne : col + 1 ≠ c := by
        have : 0 < vs.length := List.length_pos.mpr hvs
        simp only [List.length_cons] at hc
        omega
      have h := ih (col + 1) (out ++ fmtSprint v ++ "\t") hvs
        (by simp only [List.length_cons] at hc; omega)
      simp only [String.append_assoc] at h
      simp only [List.cons_append, writeParams, hne, if_false]
      simpa [String.append_assoc] using h

/-- The loop over complete rows writes the rows, one after the other. -/
theorem writeParams_rows (c : Nat) (hc : 1 ≤ c) (rows : List (List Value))
    (hrows : ∀ r ∈ rows, r.length = c) (out : String) :
    writeParams c rows.flatten 0 out = out ++ rowsText rows := by
  induction rows generalizing out with
  | nil => simp [writeParams, rowsText]
  | cons r rs ih =>
    have hr : r.length = c := hrows r (by simp)
    have hne : r ≠ [] := by
      intro e; rw [e] at hr; simp at hr; omega
    rw [List.flatten_cons, writeParams_row c r rs.flatten 0 out hne (by omega),
      ih (fun x hx => hrows x (by simp [hx]))]
    simp [rowsText, rowText, String.append_assoc]


/-! ## One flush to disk -/

theorem World.put_put (w : World) (p : String) (a b : Option Node) :
    (w.put p a).put p b = w.put p b := by
  unfold World.put
  congr 1
  funext q
  by_cases h : q = p <;> simp [h]

theorem World.put_nodes_same (w : World) (p : String) (a : Option Node) :
    (w.put p a).nodes p = a := by
  simp [World.put]

theorem World.put_nodes_other (w : World) (p q : String) (a : Option Node) (h : q ≠ p) :
    (w.put p a).nodes q = w.nodes q := by
  simp [World.put, h]

/-- A flush when nothing is at the path of the staging file: the file is
created and holds the text of the buffer. -/
theorem flushLoadDataToDisk_create (env : Env) (w : World) (inp : loadDataInsert)
    (hp : inp.dataFilePath ≠ "") (habs : w.nodes inp.dataFilePath = none)
    (hcr : env.createErr inp.dataFilePath = none) :
    flushLoadDataToDisk env w inp =
      (none, w.put inp.dataFilePath
          (some (.file (writeParams inp.columnCount inp.bindParams 0 ""))),
        { inp with bindParams := [], insertCtr := 0 }) := by
  have hstat : ∃ e, osStat env w inp.dataFilePath = .error e := by
    unfold osStat
    cases h : env.statErr inp.dataFilePath <;> simp [hp, habs]
  obtain ⟨e, he⟩ := hstat
  simp [flushLoadDataToDisk, he, osCreate, hp, hcr, flushLoadDataToDisk.write, fileWrite,
    World.put_nodes_same, World.put_put]

/-- A flush onto a staging file that exists: the text of the buffer is added at
its end where a descriptor opened with `os.O_APPEND` alone accepts writes; where
it does not, the file stays as it is.  The buffer is emptied in both cases, and
no error is returned. -/
theorem flushLoadDataToDisk_exists (env : Env) (w : World) (inp : loadDataInsert)
    (content : String) (hp : inp.dataFilePath ≠ "")
    (hfile : w.nodes inp.dataFilePath = some (.file content))
    (hst : env.statErr inp.dataFilePath = none) (hop : env.openErr inp.dataFilePath = none) :
    flushLoadDataToDisk env w inp =
      (none,
        if env.appendOnlyWritable then
          w.put inp.dataFilePath
            (some (.file (content ++ writeParams inp.columnCount inp.bindParams 0 "")))
        else w,
        { inp with bindParams := [], insertCtr := 0 }) := by
  have hstat : osStat env w inp.dataFilePath = .ok ⟨false⟩ := by
    simp [osStat, hp, hst, hfile]
  cases hw : env.appendOnlyWritable <;>
    simp [flushLoadDataToDisk, hstat, osOpenFile, hp, hop, hfile, flushLoadDataToDisk.write,
      fileWrite, O_APPEND, hw]


/-! ## One call of `LoadDataInsert` -/

theorem dataDir_ne_empty (cur : String) : dataDir cur ≠ "" := by
  intro e
  obtain ⟨Z, hZ⟩ := dataDir_ends cur
  rw [e] at hZ
  have := congrArg List.length hZ
  simp at this

theorem DB.store_same (d : DB) (t : String) (e : loadDataInsert) :
    (d.store t e).loadDataInserts t = some e := by
  simp [DB.store]

theorem DB.store_other (d : DB) (t k : String) (e : loadDataInsert) (h : k ≠ t) :
    (d.store t e).loadDataInserts k = d.loadDataInserts k := by
  simp [DB.store, h]

/-- The first part of `LoadDataInsert` (lines 21-51) where the data directory can
be used and the table's record has no name yet: the record gets the name, the
width and the path, the directory is made if it is absent, and the call goes on
with lines 53-60. -/
theorem LoadDataInsert_init (env : Env) (cur : String) (w : World) (d : DB) (t : String)
    (params : List Value) (hr : dirReady env cur w)
    (h : ((d.loadDataInserts t).getD newLoadDataInsert).table = "") :
    ∃ w1, LoadDataInsert env t params w d =
        LoadDataInsert.queue env t params w1 d
          { (d.loadDataInserts t).getD newLoadDataInsert with
            table := t, columnCount := params.length, dataFilePath := stagingPath cur t } ∧
      dirReady env cur w1 ∧ (∀ p, p ≠ dataDir cur → w1.nodes p = w.nodes p) ∧
      w1.execLog = w.execLog := by
  obtain ⟨ha, hs, hd⟩ := hr
  rcases hd with hd | ⟨hd, hm⟩
  · refine ⟨w, ?_, ⟨ha, hs, Or.inl hd⟩, fun _ _ => rfl, rfl⟩
    simp [LoadDataInsert, h, ha, osStat, dataDir_ne_empty, hs, hd]
  · refine ⟨w.put (dataDir cur) (some .dir), ?_, ⟨ha, hs, Or.inl (World.put_nodes_same _ _ _)⟩,
      fun p hp => World.put_nodes_other _ _ _ _ hp, rfl⟩
    simp [LoadDataInsert, h, ha, osStat, dataDir_ne_empty, hs, hd, osMkdirAll, hm]

/-- A call of `LoadDataInsert` for a table in the state `tableAt` goes on with
lines 53-60 on the table's record. -/
theorem LoadDataInsert_tableAt (env : Env) (cur t : String) (N c j : Nat) (buf : List Value)
    (node : Option Node) (s : State) (params : List Value)
    (hs : tableAt env cur t N c j buf node s) (hlen : params.length = c) :
    ∃ w1, LoadDataInsert env t params s.world s.db =
        LoadDataInsert.queue env t params w1 s.db
          { table := t, dataFilePath := stagingPath cur t, insertCtr := j, columnCount := c,
            bindParams := buf } ∧
      dirReady env cur w1 ∧ (∀ p, p ≠ dataDir cur → w1.nodes p = s.world.nodes p) ∧
      w1.execLog = s.world.execLog := by
  obtain ⟨hr, _, _, he⟩ := hs
  rcases he with ⟨he, hj, hb⟩ | he
  · obtain ⟨w1, h1, h2⟩ := LoadDataInsert_init env cur s.world s.db t params hr
      (by simp [he, newLoadDataInsert])
    refine ⟨w1, ?_, h2⟩
    rw [h1]
    simp [he, newLoadDataInsert, hj, hb, hlen]
  · by_cases ht : t = ""
    · obtain ⟨w1, h1, h2⟩ := LoadDataInsert_init env cur s.world s.db t params hr
        (by rw [he]; exact ht)
      refine ⟨w1, ?_, h2⟩
      rw [h1]
      simp [he, hlen]
    · refine ⟨s.world, ?_, hr, fun _ _ => rfl, rfl⟩
      simp [LoadDataInsert, he, ht]


/-- Below the flush interval a call only queues the row. -/
theorem insert_queues (env : Env) (cur t : String) (N c j : Nat) (buf : List Value)
    (node : Option Node) (s : State) (params : List Value)
    (hs : tableAt env cur t N c j buf node s) (hlen : params.length = c)
    (hj : j + 1 < N) (hN : N < 2 ^ 64) :
    s.insertErr env t params = none ∧
      tableAt env cur t N c (j + 1) (buf ++ params) node (s.insert env t params) ∧
      (s.insert env t params).world.execLog = s.world.execLog := by
  obtain ⟨w1, h1, hr1, hfr, hlog⟩ := LoadDataInsert_tableAt env cur t N c j buf node s params hs hlen
  obtain ⟨_, hN', hn, _⟩ := hs
  have hmod : (j + 1) % 2 ^ 64 = j + 1 := Nat.mod_eq_of_lt (by omega)
  have hlt : ¬ s.db.flushInterval ≤ j + 1 := by omega
  have hq : LoadDataInsert env t params s.world s.db =
      (none, w1, s.db.store t ⟨t, stagingPath cur t, j + 1, c, buf ++ params⟩) := by
    rw [h1]
    simp only [LoadDataInsert.queue, hmod, ge_iff_le, hlt, if_false]
  refine ⟨by simp [State.insertErr, hq], ⟨?_, ?_, ?_, Or.inr ?_⟩, ?_⟩
  · simpa [State.insert, hq] using hr1
  · simpa [State.insert, hq, DB.store] using hN'
  · simp only [State.insert, hq]
    rw [hfr _ (stagingPath_ne_dataDir cur t)]
    exact hn
  · simp [State.insert, hq, DB.store]
  · simpa [State.insert, hq] using hlog

/-- At the flush interval, with nothing at the path of the staging file, a call
creates the file with the text of the buffer and empties the buffer. -/
theorem insert_flush_create (env : Env) (cur t : String) (N c j : Nat) (buf : List Value)
    (s : State) (params : List Value)
    (hs : tableAt env cur t N c j buf none s) (hlen : params.length = c)
    (hj : N ≤ j + 1) (hj64 : j + 1 < 2 ^ 64) (hcr : env.createErr (stagingPath cur t) = none) :
    s.insertErr env t params = none ∧
      tableAt env cur t N c 0 []
        (some (.file (writeParams c (buf ++ params) 0 ""))) (s.insert env t params) ∧
      (s.insert env t params).db.loadDataInserts t =
        some { table := t, dataFilePath := stagingPath cur t, insertCtr := 0, columnCount := c,
               bindParams := [] } ∧
      (s.insert env t params).world.execLog = s.world.execLog := by
  obtain ⟨w1, h1, hr1, hfr, hlog⟩ := LoadDataInsert_tableAt env cur t N c j buf none s params hs hlen
  obtain ⟨_, hN', hn, _⟩ := hs
  have hmod : (j + 1) % 2 ^ 64 = j + 1 := Nat.mod_eq_of_lt hj64
  have hge : s.db.flushInterval ≤ j + 1 := by omega
  have habs : w1.nodes (stagingPath cur t) = none := by
    rw [hfr _ (stagingPath_ne_dataDir cur t)]; exact hn
  have hfl := flushLoadDataToDisk_create env w1
    ⟨t, stagingPath cur t, j + 1, c, buf ++ params⟩ (stagingPath_ne_empty cur t) habs hcr
  have hq : LoadDataInsert env t params s.world s.db =
      (none, w1.put (stagingPath cur t) (some (.file (writeParams c (buf ++ params) 0 ""))),
        s.db.store t ⟨t, stagingPath cur t, 0, c, []⟩) := by
    rw [h1]
    simp only [LoadDataInsert.queue, hmod, ge_iff_le, hge, if_true, hfl]
  obtain ⟨ha, hst, hd⟩ := hr1
  have hdd : dataDir cur ≠ stagingPath cur t := fun e => stagingPath_ne_dataDir cur t e.symm
  refine ⟨by simp [State.insertErr, hq], ⟨⟨ha, hst, ?_⟩, ?_, ?_, Or.inr ?_⟩, ?_, ?_⟩
  · simpa [State.insert, hq, World.put_nodes_other _ _ _ _ hdd] using hd
  · simpa [State.insert, hq, DB.store] using hN'
  · simp [State.insert, hq, World.put_nodes_same]
  · simp [State.insert, hq, DB.store]
  · simp [State.insert, hq, DB.store]
  · simpa [State.insert, hq, World.put] using hlog

/-- At the flush interval, with a staging file that exists, a call adds the text
of the buffer at the end of the file where a descriptor opened with
`os.O_APPEND` alone accepts writes, leaves the file as it is where it does not,
and empties the buffer in both cases. -/
theorem insert_flush_exists (env : Env) (cur t : String) (N c j : Nat) (buf : List Value)
    (content : String) (s : State) (params : List Value)
    (hs : tableAt env cur t N c j buf (some (.file content)) s) (hlen : params.length = c)
    (hj : N ≤ j + 1) (hj64 : j + 1 < 2 ^ 64) (hst : env.statErr (stagingPath cur t) = none)
    (hop : env.openErr (stagingPath cur t) = none) :
    s.insertErr env t params = none ∧
      tableAt env cur t N c 0 []
        (some (.file (if env.appendOnlyWritable then content ++ writeParams c (buf ++ params) 0 ""
          else content))) (s.insert env t params) ∧
      (s.insert env t params).db.loadDataInserts t =
        some { table := t, dataFilePath := stagingPath cur t, insertCtr := 0, columnCount := c,
               bindParams := [] } ∧
      (s.insert env t params).world.execLog = s.world.execLog := by
  obtain ⟨w1, h1, hr1, hfr, hlog⟩ :=
    LoadDataInsert_tableAt env cur t N c j buf _ s params hs hlen
  obtain ⟨_, hN', hn, _⟩ := hs
  have hmod : (j + 1) % 2 ^ 64 = j + 1 := Nat.mod_eq_of_lt hj64
  have hge : s.db.flushInterval ≤ j + 1 := by omega
  have hfile : w1.nodes (stagingPath cur t) = some (.file content) := by
    rw [hfr _ (stagingPath_ne_dataDir cur t)]; exact hn
  have hfl := flushLoadDataToDisk_exists env w1
    ⟨t, stagingPath cur t, j + 1, c, buf ++ params⟩ content (stagingPath_ne_empty cur t) hfile hst hop
  have hq : LoadDataInsert env t params s.world s.db =
      (none,
        if env.appendOnlyWritable then
          w1.put (stagingPath cur t) (some (.file (content ++ writeParams c (buf ++ params) 0 "")))
        else w1,
        s.db.store t ⟨t, stagingPath cur t, 0, c, []⟩) := by
    rw [h1]
    simp only [LoadDataInsert.queue, hmod, ge_iff_le, hge, if_true, hfl]
  obtain ⟨ha, hst1, hd⟩ := hr1
  have hdd : dataDir cur ≠ stagingPath cur t := fun e => stagingPath_ne_dataDir cur t e.symm
  refine ⟨by simp [State.insertErr, hq], ⟨⟨ha, hst1, ?_⟩, ?_, ?_, Or.inr ?_⟩, ?_, ?_⟩
  · cases hw : env.appendOnlyWritable <;>
      simpa [State.insert, hq, hw, World.put_nodes_other _ _ _ _ hdd] using hd
  · simpa [State.insert, hq, DB.store] using hN'
  · cases hw : env.appendOnlyWritable <;>
      simp [State.insert, hq, hw, World.put_nodes_same, hfile]
  · simp [State.insert, hq, DB.store]
  · simp [State.insert, hq, DB.store]
  · cases hw : env.appendOnlyWritable <;> simpa [State.insert, hq, hw, World.put] using hlog


/-! ## Runs on one table -/

theorem insertRows_append (env : Env) (t : String) (xs ys : List (List Value)) (s : State) :
    insertRows env t (xs ++ ys) s = insertRows env t ys (insertRows env t xs s) := by
  induction xs generalizing s with
  | nil => rfl
  | cons x xs ih => simp [insertRows, ih]

/-- Rows queued below the flush interval stay in the buffer, in order. -/
theorem insertRows_queues (env : Env) (cur t : String) (N c : Nat) (hN : N < 2 ^ 64)
    (rs : List (List Value)) (hrs : ∀ r ∈ rs, r.length = c) (j : Nat) (buf : List Value)
    (node : Option Node) (s : State) (hs : tableAt env cur t N c j buf node s)
    (hj : j + rs.length < N) :
    tableAt env cur t N c (j + rs.length) (buf ++ rs.flatten) node (insertRows env t rs s) ∧
      (insertRows env t rs s).world.execLog = s.world.execLog := by
  induction rs generalizing j buf s with
  | nil => simpa [insertRows] using hs
  | cons r rs ih =>
    simp only [List.length_cons] at hj
    obtain ⟨_, h2, h3⟩ := insert_queues env cur t N c j buf node s r hs
      (hrs r (by simp)) (by omega) hN
    obtain ⟨h4, h5⟩ := ih (fun x hx => hrs x (by simp [hx])) (j + 1) (buf ++ r)
      (s.insert env t r) h2 (by omega)
    refine ⟨?_, by simpa [insertRows, h3] using h5⟩
    simpa [insertRows, List.length_cons, Nat.add_assoc, Nat.add_comm 1] using h4

theorem tableAt_entry (env : Env) (cur t : String) (N c j : Nat) (buf : List Value)
    (node : Option Node) (s : State) (hs : tableAt env cur t N c j buf node s) (hj : 1 ≤ j) :
    s.db.loadDataInserts t = some ⟨t, stagingPath cur t, j, c, buf⟩ := by
  rcases hs.2.2.2 with ⟨_, h, _⟩ | h
  · omega
  · exact h

/-- The run of `N` rows on a table that has no record and no staging file, with
the flush interval `N`. -/
theorem insertRows_threshold (env : Env) (cur t : String) (c : Nat) (rows : List (List Value))
    (s : State) (hready : dirReady env cur s.world)
    (hcreate : env.createErr (stagingPath cur t) = none)
    (hN : s.db.flushInterval = rows.length) (h1 : 1 ≤ rows.length) (h64 : rows.length < 2 ^ 64)
    (hc : 1 ≤ c) (hrows : ∀ r ∈ rows, r.length = c)
    (hfresh : s.db.loadDataInserts t = none)
    (hnofile : s.world.nodes (stagingPath cur t) = none) :
    (∀ j (hj : j < rows.length),
        (insertRows env t (rows.take j) s).insertErr env t rows[j] = none) ∧
    (∀ j, 1 ≤ j → j < rows.length →
      (insertRows env t (rows.take j) s).world.nodes (stagingPath cur t) = none ∧
      (insertRows env t (rows.take j) s).db.loadDataInserts t =
        some { table := t, dataFilePath := stagingPath cur t, insertCtr := j, columnCount := c,
               bindParams := (rows.take j).flatten }) ∧
    (insertRows env t rows s).world.nodes (stagingPath cur t) = some (.file (rowsText rows)) ∧
    (insertRows env t rows s).db.loadDataInserts t =
      some { table := t, dataFilePath := stagingPath cur t, insertCtr := 0, columnCount := c,
             bindParams := [] } := by
  have h0 : tableAt env cur t rows.length c 0 [] none s :=
    ⟨hready, hN, hnofile, Or.inl ⟨hfresh, rfl, rfl⟩⟩
  have hpre : ∀ j, j < rows.length →
      tableAt env cur t rows.length c j (rows.take j).flatten none
        (insertRows env t (rows.take j) s) := by
    intro j hj
    have hl : (rows.take j).length = j := by simp [List.length_take]; omega
    have := (insertRows_queues env cur t rows.length c h64 (rows.take j)
      (fun r hr => hrows r (List.mem_of_mem_take hr)) 0 [] none s h0 (by omega)).1
    simpa [hl] using this
  have hsplit : ∀ j (hj : j < rows.length), rows.take (j + 1) = rows.take j ++ [rows[j]] := by
    intro j hj
    rw [List.take_succ, List.getElem?_eq_getElem hj]
    rfl
  refine ⟨?_, ?_, ?_⟩
  · intro j hj
    by_cases hlast : j + 1 < rows.length
    · exact (insert_queues env cur t rows.length c j _ none _ rows[j] (hpre j hj)
        (hrows _ (List.getElem_mem hj)) hlast h64).1
    · exact (insert_flush_create env cur t rows.length c j _ _ rows[j] (hpre j hj)
        (hrows _ (List.getElem_mem hj)) (by omega) (by omega) hcreate).1
  · intro j hj1 hj
    exact ⟨(hpre j hj).2.2.1, tableAt_entry env cur t _ c j _ none _ (hpre j hj) hj1⟩
  · have hj : rows.length - 1 < rows.length := by omega
    have hfull : rows.take (rows.length - 1) ++ [rows[rows.length - 1]] = rows := by
      rw [← hsplit _ hj, show rows.length - 1 + 1 = rows.length by omega, List.take_length]
    obtain ⟨_, hat, hent, _⟩ := insert_flush_create env cur t rows.length c (rows.length - 1) _ _
      rows[rows.length - 1] (hpre _ hj) (hrows _ (List.getElem_mem hj)) (by omega) (by omega)
      hcreate
    have hrun : insertRows env t rows s =
        (insertRows env t (rows.take (rows.length - 1)) s).insert env t rows[rows.length - 1] := by
      have := insertRows_append env t (rows.take (rows.length - 1)) [rows[rows.length - 1]] s
      rw [hfull] at this
      exact this
    have hflat : (rows.take (rows.length - 1)).flatten ++ rows[rows.length - 1] = rows.flatten := by
      have := congrArg List.flatten hfull
      rw [List.flatten_append] at this
      rw [← this]
      simp
    rw [hrun]
    refine ⟨?_, hent⟩
    rw [hat.2.2.1, hflat, writeParams_rows c hc rows hrows]
    simp


/-! ## The format of the staging file, the flush threshold and the load -/

/-- C1, as stated, fails: after `LoadDataInsert(t, "a", 1)` and
`LoadDataInsert(t, "b", 2)` with the flush interval 2 the staging file holds
`a\t1\t\nb\t2\t\n`, with a tab between the last value of a row and its
newline, and not `a\t1\nb\t2\n`. -/
theorem C1_counterexample :
    (insertRows (quietEnv false) "t" [[.str "a", .int 1], [.str "b", .int 2]]
        ⟨emptyWorld, Open 2⟩).world.nodes (stagingPath "/srv/app" "t") =
      some (.file "a\t1\t\nb\t2\t\n") ∧
    (insertRows (quietEnv false) "t" [[.str "a", .int 1], [.str "b", .int 2]]
        ⟨emptyWorld, Open 2⟩).world.nodes (stagingPath "/srv/app" "t") ≠
      some (.file "a\t1\nb\t2\n") := by
  decide

/-- C1, amended. Staging file format: for a table that has no record and no
staging file and the flush interval 2, `LoadDataInsert(t, "a", 1)` followed by
`LoadDataInsert(t, "b", 2)` leaves the staging file with the content
`a\t1\t\nb\t2\t\n`.  In general, for every `columnCount` `c ≥ 1` and every
buffer of `k * c` values, `flushLoadDataToDisk` returns no error and writes `k`
rows, each row being the default text of its `c` values, every value followed by
one tab, and one newline after the last tab (`rowText`): into the file it
creates when nothing is at the path, and at the end of the file that exists
where a descriptor opened with `os.O_APPEND` alone accepts writes. -/
theorem C1_staging_format :
    (∀ (env : Env) (cur t : String) (s : State), dirReady env cur s.world →
      env.createErr (stagingPath cur t) = none → s.db.flushInterval = 2 →
      s.db.loadDataInserts t = none → s.world.nodes (stagingPath cur t) = none →
      (insertRows env t [[.str "a", .int 1], [.str "b", .int 2]] s).world.nodes
        (stagingPath cur t) = some (.file "a\t1\t\nb\t2\t\n")) ∧
    (∀ (env : Env) (w : World) (inp : loadDataInsert) (c : Nat) (rows : List (List Value)),
      1 ≤ c → inp.columnCount = c → (∀ r ∈ rows, r.length = c) →
      inp.bindParams = rows.flatten → inp.dataFilePath ≠ "" →
      (w.nodes inp.dataFilePath = none → env.createErr inp.dataFilePath = none →
        flushLoadDataToDisk env w inp =
          (none, w.put inp.dataFilePath (some (.file (rowsText rows))),
            { inp with bindParams := [], insertCtr := 0 })) ∧
      (∀ content, w.nodes inp.dataFilePath = some (.file content) →
        env.statErr inp.dataFilePath = none → env.openErr inp.dataFilePath = none →
        env.appendOnlyWritable = true →
        flushLoadDataToDisk env w inp =
          (none, w.put inp.dataFilePath (some (.file (content ++ rowsText rows))),
            { inp with bindParams := [], insertCtr := 0 }))) := by
  refine ⟨?_, ?_⟩
  · intro env cur t s hready hcreate hN hfresh hnofile
    have h := (insertRows_threshold env cur t 2 [[.str "a", .int 1], [.str "b", .int 2]] s hready
      hcreate hN (by decide) (by decide) (by decide) (by decide) hfresh hnofile).2.2.1
    rw [h]
    decide
  · intro env w inp c rows hc hcc hrows hbuf hp
    have htext : writeParams inp.columnCount inp.bindParams 0 "" = rowsText rows := by
      rw [hcc, hbuf, writeParams_rows c hc rows hrows]
      simp
    refine ⟨?_, ?_⟩
    · intro habs hcr
      rw [flushLoadDataToDisk_create env w inp hp habs hcr, htext]
    · intro content hfile hst hop hw
      rw [flushLoadDataToDisk_exists env w inp content hp hfile hst hop, htext, hw]
      simp

/-- C1, amended, at a concrete input: the flush of the buffer `a, 1, b, 2` with
`columnCount` 2 into an empty file system. -/
theorem C1_staging_format_witness :
    flushLoadDataToDisk (quietEnv false) emptyWorld
        ⟨"t", "/srv/app/data/t.dat", 2, 2, [.str "a", .int 1, .str "b", .int 2]⟩ =
      (none, emptyWorld.put "/srv/app/data/t.dat"
          (some (.file (rowsText [[.str "a", .int 1], [.str "b", .int 2]]))),
        ⟨"t", "/srv/app/data/t.dat", 0, 2, []⟩) :=
  (C1_staging_format.2 (quietEnv false) emptyWorld
    ⟨"t", "/srv/app/data/t.dat", 2, 2, [.str "a", .int 1, .str "b", .int 2]⟩ 2
    [[.str "a", .int 1], [.str "b", .int 2]] (by decide) rfl (by decide) rfl (by decide)).1 rfl rfl

/-- C2. Flush threshold: with the flush interval `N = rows.length`, `1 ≤ N`, a
table that has no `loadDataInsert` and no staging file, and `N` rows of the
width `c`, `1 ≤ c`, queued where the data directory can be used and the staging
file can be created: every call returns no error; after the `j`-th call,
`1 ≤ j < N`, nothing is at the path of the staging file and the record holds
the counter `j` and the `j` rows queued so far; after the `N`-th call the
staging file holds the text of the `N` rows in their order, and the record has
an empty buffer and the counter `0`. -/
theorem C2_flush_threshold (env : Env) (cur t : String) (c : Nat) (rows : List (List Value))
    (s : State) (hready : dirReady env cur s.world)
    (hcreate : env.createErr (stagingPath cur t) = none)
    (hN : s.db.flushInterval = rows.length) (h1 : 1 ≤ rows.length) (h64 : rows.length < 2 ^ 64)
    (hc : 1 ≤ c) (hrows : ∀ r ∈ rows, r.length = c)
    (hfresh : s.db.loadDataInserts t = none)
    (hnofile : s.world.nodes (stagingPath cur t) = none) :
    (∀ j (hj : j < rows.length),
        (insertRows env t (rows.take j) s).insertErr env t rows[j] = none) ∧
    (∀ j, 1 ≤ j → j < rows.length →
      (insertRows env t (rows.take j) s).world.nodes (stagingPath cur t) = none ∧
      (insertRows env t (rows.take j) s).db.loadDataInserts t =
        some { table := t, dataFilePath := stagingPath cur t, insertCtr := j, columnCount := c,
               bindParams := (rows.take j).flatten }) ∧
    (insertRows env t rows s).world.nodes (stagingPath cur t) = some (.file (rowsText rows)) ∧
    (insertRows env t rows s).db.loadDataInserts t =
      some { table := t, dataFilePath := stagingPath cur t, insertCtr := 0, columnCount := c,
             bindParams := [] } :=
  insertRows_threshold env cur t c rows s hready hcreate hN h1 h64 hc hrows hfresh hnofile

/-- C2 at a concrete input: three rows of width 2 with the flush interval 3, in
an empty file system.  After the second call nothing is at the path of the
staging file and the buffer holds two rows; after the third the file holds the
three rows. -/
theorem C2_flush_threshold_witness :
    ((insertRows (quietEnv false) "t" [[.str "a", .int 1], [.str "b", .int 2]]
        ⟨emptyWorld, Open 3⟩).world.nodes (stagingPath "/srv/app" "t") = none ∧
      (insertRows (quietEnv false) "t" [[.str "a", .int 1], [.str "b", .int 2]]
        ⟨emptyWorld, Open 3⟩).db.loadDataInserts "t" =
        some ⟨"t", stagingPath "/srv/app" "t", 2, 2, [.str "a", .int 1, .str "b", .int 2]⟩) ∧
    (insertRows (quietEnv false) "t" [[.str "a", .int 1], [.str "b", .int 2], [.str "c", .int 3]]
        ⟨emptyWorld, Open 3⟩).world.nodes (stagingPath "/srv/app" "t") =
      some (.file (rowsText [[.str "a", .int 1], [.str "b", .int 2], [.str "c", .int 3]])) :=
  have h := C2_flush_threshold (quietEnv false) "/srv/app" "t" 2
    [[.str "a", .int 1], [.str "b", .int 2], [.str "c", .int 3]] ⟨emptyWorld, Open 3⟩
    ⟨rfl, rfl, Or.inr ⟨rfl, rfl⟩⟩ rfl rfl (by decide) (by decide) (by decide) (by decide) rfl rfl
  ⟨h.2.1 2 (by decide) (by decide), h.2.2.1⟩


/-- C3 at its failing input. Unix, flush interval 2, four rows of width 2 queued
for a table that had no record and no staging file: no call returns an error,
the buffer is empty after the fourth call, and the staging file holds the first
two rows only, not the four rows. -/
theorem C3_second_flush_writes_nothing :
    (∀ j (hj : j < 4),
      (insertRows (quietEnv false) "t"
        ([[.str "a", .int 1], [.str "b", .int 2], [.str "c", .int 3], [.str "d", .int 4]].take j)
        ⟨emptyWorld, Open 2⟩).insertErr (quietEnv false) "t"
        ([[.str "a", .int 1], [.str "b", .int 2], [.str "c", .int 3], [.str "d", .int 4]].get
          ⟨j, hj⟩) = none) ∧
    (insertRows (quietEnv false) "t"
      [[.str "a", .int 1], [.str "b", .int 2], [.str "c", .int 3], [.str "d", .int 4]]
      ⟨emptyWorld, Open 2⟩).db.loadDataInserts "t" =
      some ⟨"t", "/srv/app/data/t.dat", 0, 2, []⟩ ∧
    (insertRows (quietEnv false) "t"
      [[.str "a", .int 1], [.str "b", .int 2], [.str "c", .int 3], [.str "d", .int 4]]
      ⟨emptyWorld, Open 2⟩).world.nodes "/srv/app/data/t.dat" =
      some (.file "a\t1\t\nb\t2\t\n") ∧
    rowsText [[.str "a", .int 1], [.str "b", .int 2], [.str "c", .int 3], [.str "d", .int 4]] ≠
      "a\t1\t\nb\t2\t\n" := by
  decide

/-- C4 at its failing input. Unix, flush interval 2: in `thirdRowPending` the
staging file holds two rows and the buffer the third.  `flushLoadData` returns
no error, gives the session one statement, removes the file and empties the
buffer, but the file the statement could read held the first two rows only: the
row that was buffered at the call was never written. -/
theorem C4_buffered_row_never_written :
    thirdRowRecord = ⟨"t", "/srv/app/data/t.dat", 1, 2, [.str "c", .int 3]⟩ ∧
    thirdRowPending.world.nodes "/srv/app/data/t.dat" = some (.file "a\t1\t\nb\t2\t\n") ∧
    (flushLoadData (quietEnv false) thirdRowPending.world thirdRowRecord).1 = none ∧
    (flushLoadData (quietEnv false) thirdRowPending.world thirdRowRecord).2.2 =
      ⟨"t", "/srv/app/data/t.dat", 0, 2, []⟩ ∧
    (flushLoadData (quietEnv false) thirdRowPending.world thirdRowRecord).2.1.nodes
      "/srv/app/data/t.dat" = none ∧
    seenAt "/srv/app/data/t.dat"
      (flushLoadData (quietEnv false) thirdRowPending.world thirdRowRecord).2.1.execLog =
      [("LOAD DATA CONCURRENT LOCAL INFILE '/srv/app/data/t.dat' INTO TABLE t",
        some (.file "a\t1\t\nb\t2\t\n"))] := by
  decide

/-- C5 at its failing input. Unix, flush interval 2, a session that rejects the
statement: from `thirdRowPending`, `flushLoadData` returns the error of the
session and does not remove the staging file, but the file holds what it held
before the call, without the row that was buffered at the call, and the buffer
is empty: the row is lost. -/
theorem C5_buffered_row_lost :
    thirdRowRecord = ⟨"t", "/srv/app/data/t.dat", 1, 2, [.str "c", .int 3]⟩ ∧
    thirdRowPending.world.nodes "/srv/app/data/t.dat" = some (.file "a\t1\t\nb\t2\t\n") ∧
    (flushLoadData (rejectingEnv false) thirdRowPending.world thirdRowRecord).1 =
      some "statement rejected" ∧
    (flushLoadData (rejectingEnv false) thirdRowPending.world thirdRowRecord).2.2 =
      ⟨"t", "/srv/app/data/t.dat", 0, 2, []⟩ ∧
    (flushLoadData (rejectingEnv false) thirdRowPending.world thirdRowRecord).2.1.nodes
      "/srv/app/data/t.dat" = some (.file "a\t1\t\nb\t2\t\n") ∧
    "a\t1\t\nb\t2\t\n" ≠ "a\t1\t\nb\t2\t\n" ++ rowsText [[.str "c", .int 3]] := by
  decide

/-- C6. No-op load: for a record with `insertCtr = 0` whose staging file does
not exist, `flushLoadData` returns no error and leaves the world (the file
system and the statements given to the session) and the record as they are. -/
theorem C6_noop_load (env : Env) (w : World) (inp : loadDataInsert)
    (hctr : inp.insertCtr = 0) (habs : w.nodes inp.dataFilePath = none) :
    flushLoadData env w inp = (none, w, inp) := by
  have hstat : ∃ e, osStat env w inp.dataFilePath = .error e := by
    unfold osStat
    by_cases hp : inp.dataFilePath = ""
    · exact ⟨.notExist, by simp [hp]⟩
    · cases h : env.statErr inp.dataFilePath <;> simp [hp, habs]
  obtain ⟨e, he⟩ := hstat
  simp [flushLoadData, hctr, he]

/-- C6 at a concrete input: a record for the table `t` with nothing buffered, in
an empty file system. -/
theorem C6_noop_load_witness :
    flushLoadData (quietEnv false) emptyWorld ⟨"t", "/srv/app/data/t.dat", 0, 2, []⟩ =
      (none, emptyWorld, ⟨"t", "/srv/app/data/t.dat", 0, 2, []⟩) :=
  C6_noop_load (quietEnv false) emptyWorld ⟨"t", "/srv/app/data/t.dat", 0, 2, []⟩ rfl rfl

/-- C9 at its failing input. For the path `deepPath`, which has 21 backslashes,
the statement `flushLoadData` gives the session doubles the first 20 backslashes
and leaves the last one single; it is not the statement with every backslash
doubled. -/
theorem C9_backslash_after_the_twentieth :
    seenAt deepPath (flushLoadData (quietEnv false) (emptyWorld.put deepPath (some (.file "")))
      ⟨"t", deepPath, 0, 1, []⟩).2.1.execLog =
      [("LOAD DATA CONCURRENT LOCAL INFILE 'C:" ++
          (List.replicate 20 "\\\\d").foldr (fun s acc => s ++ acc) "" ++ "\\t.dat' INTO TABLE t",
        some (.file ""))] ∧
    loadQuery ⟨"t", deepPath, 0, 1, []⟩ ≠ specLoadQuery deepPath "t" := by
  decide


/-! ## `generatePlaceholders` -/

theorem intercalate_go_concat (sep acc x : String) (l : List String) :
    String.intercalate.go acc sep (l ++ [x]) = String.intercalate.go acc sep l ++ sep ++ x := by
  induction l generalizing acc with
  | nil => simp [String.intercalate.go]
  | cons a as ih => simp [String.intercalate.go, ih]

theorem intercalate_concat_string (sep x : String) (l : List String) (hl : l ≠ []) :
    sep.intercalate (l ++ [x]) = sep.intercalate l ++ sep ++ x := by
  cases l with
  | nil => exact absurd rfl hl
  | cons a as => simp [String.intercalate, intercalate_go_concat]

theorem toString_ofNat_succ (k : Nat) : toString (Int.ofNat k + 1) = toString (k + 1) := by
  rfl

/-- The loop of `generatePlaceholders` after `m + 1` rounds: the placeholders
`$1` to `$(m+1)`, separated by commas, and a comma at the end. -/
theorem placeholders_loop (m : Nat) :
    (List.range (m + 1)).foldl
        (fun acc k => acc ++ ("$" ++ toString (Int.ofNat k + 1) ++ ",")) "" =
      placeholderList (m + 1) ++ "," := by
  induction m with
  | zero => decide
  | succ m ih =>
    rw [List.range_succ, List.foldl_append, ih]
    simp only [List.foldl_cons, List.foldl_nil, placeholderList]
    rw [List.range'_1_concat 1 (m + 1), List.map_append, List.map_singleton,
      intercalate_concat_string _ _ _ (by simp [List.range'_succ]), toString_ofNat_succ]
    simp [String.append_assoc, Nat.add_comm 1]


theorem generatePlaceholders_pos (n : Int) (hn : 1 ≤ n) :
    generatePlaceholders n = some ("(" ++ placeholderList n.toNat ++ ")") := by
  obtain ⟨m, hm⟩ : ∃ m, n.toNat = m + 1 := ⟨n.toNat - 1, by omega⟩
  unfold generatePlaceholders
  simp only [hm, placeholders_loop m]
  have hd : (placeholderList (m + 1) ++ ",").data = (placeholderList (m + 1)).data ++ [','] := by
    simp [String.data_append]
  rw [hd, if_neg (by simp), List.dropLast_concat]

/-- C10. `generatePlaceholders`: for every `n ≥ 1` the function returns (it does
not panic) the string `(` ++ `$1,$2,...,$n` ++ `)`, the placeholders `$1` to `$n`
in increasing order, separated by single commas, with no comma after the last,
in one pair of parentheses; and the copy in `oracle.go` returns for every `n`
what the copy in `sqlserver.go` returns. -/
theorem C10_generatePlaceholders :
    (∀ n : Int, 1 ≤ n →
      generatePlaceholders n =
        some ("(" ++ ",".intercalate ((List.range' 1 n.toNat).map (fun i => "$" ++ toString i))
          ++ ")")) ∧
    (∀ n : Int, oracle.generatePlaceholders n = generatePlaceholders n) :=
  ⟨fun n hn => generatePlaceholders_pos n hn, fun _ => rfl⟩

/-- C10 at `n = 3`: both copies return `($1,$2,$3)`. -/
theorem C10_generatePlaceholders_witness :
    generatePlaceholders 3 = some "($1,$2,$3)" ∧
      oracle.generatePlaceholders 3 = some "($1,$2,$3)" :=
  ⟨C10_generatePlaceholders.1 3 (by decide),
    (C10_generatePlaceholders.2 3).trans (C10_generatePlaceholders.1 3 (by decide))⟩


/-! ## What a call does to a record -/

/-- A flush to disk leaves the record as it is (when it fails) or empties the
buffer and resets the counter; the name, the path and the width stay. -/
theorem flushLoadDataToDisk_record (env : Env) (w : World) (inp : loadDataInsert) :
    (flushLoadDataToDisk env w inp).2.2 = inp ∨
      (flushLoadDataToDisk env w inp).2.2 = { inp with bindParams := [], insertCtr := 0 } := by
  unfold flushLoadDataToDisk
  cases osStat env w inp.dataFilePath with
  | error e =>
    cases osCreate env w inp.dataFilePath with
    | error err => exact Or.inl rfl
    | ok fw => exact Or.inr rfl
  | ok i =>
    cases osOpenFile env w inp.dataFilePath O_APPEND with
    | error err => exact Or.inl rfl
    | ok fw => exact Or.inr rfl

/-- The record `flushLoadData` leaves is the record `flushLoadDataToDisk` leaves,
or the record it was given. -/
theorem flushLoadData_record (env : Env) (w : World) (inp : loadDataInsert) :
    (flushLoadData env w inp).2.2 = inp ∨
      (flushLoadData env w inp).2.2 = { inp with bindParams := [], insertCtr := 0 } := by
  have h := flushLoadDataToDisk_record env w inp
  unfold flushLoadData
  by_cases hc : inp.insertCtr > 0
  · simp only [hc, if_true]
    rcases hf : flushLoadDataToDisk env w inp with ⟨e1, w1, in1⟩
    rw [hf] at h
    simp only at h
    cases e1 with
    | some err => simpa using h
    | none =>
      simp only
      cases osStat env w1 in1.dataFilePath with
      | error e => simpa using h
      | ok i =>
        simp only
        rcases dbExec env w1 (loadQuery in1) with ⟨e2, w2⟩
        cases e2 with
        | some err => simpa using h
        | none =>
          simp only
          rcases osRemove env w2 in1.dataFilePath with ⟨e3, w3⟩
          cases e3 <;> simpa using h
  · simp only [hc, if_false]
    cases osStat env w inp.dataFilePath with
    | error e => exact Or.inl rfl
    | ok i =>
      simp only
      rcases dbExec env w (loadQuery inp) with ⟨e2, w2⟩
      cases e2 with
      | some err => exact Or.inl rfl
      | none =>
        simp only
        rcases osRemove env w2 inp.dataFilePath with ⟨e3, w3⟩
        cases e3 <;> exact Or.inl rfl


/-- Lines 53-60 store a record with the name, the path and the width they were
given, and with the buffer extended by the row or emptied. -/
theorem queue_record (env : Env) (t : String) (p : List Value) (w : World) (d : DB)
    (e : loadDataInsert) :
    ∃ e1, (LoadDataInsert.queue env t p w d e).2.2 = d.store t e1 ∧ e1.table = e.table ∧
      e1.columnCount = e.columnCount ∧ e1.dataFilePath = e.dataFilePath ∧
      (e1.bindParams = e.bindParams ++ p ∨ e1.bindParams = []) := by
  unfold LoadDataInsert.queue
  simp only
  split
  · rcases flushLoadDataToDisk_record env w
      { e with insertCtr := (e.insertCtr + 1) % 2 ^ 64, bindParams := e.bindParams ++ p } with h | h
    · exact ⟨_, rfl, by rw [h], by rw [h], by rw [h], Or.inl (by rw [h])⟩
    · exact ⟨_, rfl, by rw [h], by rw [h], by rw [h], Or.inr (by rw [h])⟩
  · exact ⟨_, rfl, rfl, rfl, rfl, Or.inl rfl⟩

/-- The record `LoadDataInsert` stores for the table: a record without name gets
the name of the table and the width of the row, and the path of the table's
staging file unless the call fails before line 50; a record with a name keeps
name, width and path; the buffer is as it was, extended by the row, or empty. -/
theorem LoadDataInsert_record (env : Env) (t : String) (p : List Value) (w : World) (d : DB) :
    ∃ e1, (LoadDataInsert env t p w d).2.2 = d.store t e1 ∧
      e1.table = (if ((d.loadDataInserts t).getD newLoadDataInsert).table = "" then t
        else ((d.loadDataInserts t).getD newLoadDataInsert).table) ∧
      e1.columnCount = (if ((d.loadDataInserts t).getD newLoadDataInsert).table = "" then p.length
        else ((d.loadDataInserts t).getD newLoadDataInsert).columnCount) ∧
      (e1.dataFilePath = ((d.loadDataInserts t).getD newLoadDataInsert).dataFilePath ∨
        ∃ cur, env.args0Dir = .ok cur ∧ e1.dataFilePath = stagingPath cur t) ∧
      (e1.bindParams = ((d.loadDataInserts t).getD newLoadDataInsert).bindParams ∨
        e1.bindParams = ((d.loadDataInserts t).getD newLoadDataInsert).bindParams ++ p ∨
        e1.bindParams = []) := by
  unfold LoadDataInsert
  simp only
  generalize (d.loadDataInserts t).getD newLoadDataInsert = e0
  by_cases h0 : e0.table = ""
  · have hq : ∀ (w1 : World) (cur : String), env.args0Dir = .ok cur →
        ∃ e1, (LoadDataInsert.queue env t p w1 d
            { e0 with table := t, columnCount := p.length,
                      dataFilePath := stagingPath cur t }).2.2 = d.store t e1 ∧
          e1.table = t ∧ e1.columnCount = p.length ∧
          (e1.dataFilePath = e0.dataFilePath ∨
            ∃ cur, env.args0Dir = .ok cur ∧ e1.dataFilePath = stagingPath cur t) ∧
          (e1.bindParams = e0.bindParams ∨ e1.bindParams = e0.bindParams ++ p ∨
            e1.bindParams = []) := by
      intro w1 cur hcur
      obtain ⟨e1, h1, h2, h3, h4, h5⟩ := queue_record env t p w1 d
        { e0 with table := t, columnCount := p.length, dataFilePath := stagingPath cur t }
      exact ⟨e1, h1, h2, h3, Or.inr ⟨cur, hcur, h4⟩, Or.inr h5⟩
    have hstore : ∃ e1, d.store t { e0 with table := t, columnCount := p.length } = d.store t e1 ∧
          e1.table = t ∧ e1.columnCount = p.length ∧
          (e1.dataFilePath = e0.dataFilePath ∨
            ∃ cur, env.args0Dir = .ok cur ∧ e1.dataFilePath = stagingPath cur t) ∧
          (e1.bindParams = e0.bindParams ∨ e1.bindParams = e0.bindParams ++ p ∨
            e1.bindParams = []) :=
      ⟨_, rfl, rfl, rfl, Or.inl rfl, Or.inl rfl⟩
    simp only [h0, if_true]
    split
    · exact hstore
    · rename_i cur hcur
      cases osStat env w (dataDir cur) with
      | ok info =>
        simp only
        split
        · exact hq w cur hcur
        · exact hstore
      | error se =>
        cases se with
        | notExist =>
          simp only
          rcases osMkdirAll env w (dataDir cur) with ⟨em, w1⟩
          cases em with
          | some err => exact hstore
          | none => exact hq w1 cur hcur
        | other err => exact hstore
  · simp only [h0, if_false]
    obtain ⟨e1, h1, h2, h3, h4, h5⟩ := queue_record env t p w d e0
    exact ⟨e1, h1, h2, h3, Or.inl h4, Or.inr h5⟩


/-! ## The width of the buffer -/

theorem insert_db (env : Env) (s : State) (t : String) (p : List Value) :
    (s.insert env t p).db = (LoadDataInsert env t p s.world s.db).2.2 := rfl

theorem widthInv_step (env : Env) (width : String → Nat) (s : State) (op : Op)
    (hop : ∀ t p, op = .insert t p → p.length = width t) (hs : widthInv width s) :
    widthInv width (s.step env op) := by
  intro k e hk
  cases op with
  | insert t p =>
    have hp := hop t p rfl
    obtain ⟨e1, h1, h2, h3, _, h5⟩ := LoadDataInsert_record env t p s.world s.db
    simp only [State.step, insert_db, h1] at hk
    by_cases hkt : k = t
    · subst hkt
      rw [DB.store_same] at hk
      cases hk
      cases hm : s.db.loadDataInserts k with
      | none =>
        simp only [hm, Option.getD_none, newLoadDataInsert, if_true] at h2 h3 h5
        refine ⟨h2, by rw [h3, hp], ?_⟩
        rcases h5 with h | h | h <;> simp [h, hp]
      | some e0 =>
        obtain ⟨g1, g2, g3⟩ := hs k e0 hm
        simp only [hm, Option.getD_some] at h2 h3 h5
        refine ⟨?_, ?_, ?_⟩
        · rw [h2]; split
          · rfl
          · exact g1
        · rw [h3]; split
          · exact hp
          · exact g2
        · rcases h5 with h | h | h
          · rw [h]; exact g3
          · rw [h, List.length_append, hp]; exact Dvd.dvd.add g3 (dvd_refl _)
          · simp [h]
    · rw [DB.store_other _ _ _ _ hkt] at hk
      exact hs k e hk
  | load t =>
    simp only [State.step] at hk
    cases hm : s.db.loadDataInserts t with
    | none =>
      simp only [hm] at hk
      exact hs k e hk
    | some e0 =>
      simp only [hm] at hk
      by_cases hkt : k = t
      · subst hkt
        rw [DB.store_same] at hk
        cases hk
        obtain ⟨g1, g2, g3⟩ := hs k e0 hm
        rcases flushLoadData_record env s.world e0 with h | h <;> rw [h]
        · exact ⟨g1, g2, g3⟩
        · exact ⟨g1, g2, by simp⟩
      · rw [DB.store_other _ _ _ _ hkt] at hk
        exact hs k e hk
  | toDisk t =>
    simp only [State.step] at hk
    cases hm : s.db.loadDataInserts t with
    | none =>
      simp only [hm] at hk
      exact hs k e hk
    | some e0 =>
      simp only [hm] at hk
      by_cases hkt : k = t
      · subst hkt
        rw [DB.store_same] at hk
        cases hk
        obtain ⟨g1, g2, g3⟩ := hs k e0 hm
        rcases flushLoadDataToDisk_record env s.world e0 with h | h <;> rw [h]
        · exact ⟨g1, g2, g3⟩
        · exact ⟨g1, g2, by simp⟩
      · rw [DB.store_other _ _ _ _ hkt] at hk
        exact hs k e hk

theorem widthInv_run (env : Env) (width : String → Nat) (ops : List Op) (s : State)
    (hops : ∀ t p, Op.insert t p ∈ ops → p.length = width t) (hs : widthInv width s) :
    widthInv width (s.run env ops) := by
  induction ops generalizing s with
  | nil => exact hs
  | cons op ops ih =>
    have h1 := widthInv_step env width s op (fun t p h => hops t p (by simp [h])) hs
    exact ih (s.step env op) (fun t p h => hops t p (by simp [h])) h1

/-- Once a record has a name, no call changes its name or its width. -/
theorem columnCount_step (env : Env) (s : State) (op : Op) (t : String) (e : loadDataInsert)
    (he : s.db.loadDataInserts t = some e) (hn : e.table ≠ "") :
    ∃ e1, (s.step env op).db.loadDataInserts t = some e1 ∧ e1.table = e.table ∧
      e1.columnCount = e.columnCount := by
  cases op with
  | insert k p =>
    obtain ⟨e1, h1, h2, h3, _, _⟩ := LoadDataInsert_record env k p s.world s.db
    simp only [State.step, insert_db, h1]
    by_cases hkt : t = k
    · subst hkt
      simp only [he, Option.getD_some, hn, if_false] at h2 h3
      exact ⟨e1, DB.store_same _ _ _, h2, h3⟩
    · exact ⟨e, by rw [DB.store_other _ _ _ _ hkt]; exact he, rfl, rfl⟩
  | load k =>
    simp only [State.step]
    cases hm : s.db.loadDataInserts k with
    | none => exact ⟨e, he, rfl, rfl⟩
    | some e0 =>
      simp only
      by_cases hkt : t = k
      · subst hkt
        rw [he] at hm
        cases hm
        rcases flushLoadData_record env s.world e with h | h
        · exact ⟨_, DB.store_same _ _ _, by rw [h], by rw [h]⟩
        · exact ⟨_, DB.store_same _ _ _, by rw [h], by rw [h]⟩
      · exact ⟨e, by rw [DB.store_other _ _ _ _ hkt]; exact he, rfl, rfl⟩
  | toDisk k =>
    simp only [State.step]
    cases hm : s.db.loadDataInserts k with
    | none => exact ⟨e, he, rfl, rfl⟩
    | some e0 =>
      simp only
      by_cases hkt : t = k
      · subst hkt
        rw [he] at hm
        cases hm
        rcases flushLoadDataToDisk_record env s.world e with h | h
        · exact ⟨_, DB.store_same _ _ _, by rw [h], by rw [h]⟩
        · exact ⟨_, DB.store_same _ _ _, by rw [h], by rw [h]⟩
      · exact ⟨e, by rw [DB.store_other _ _ _ _ hkt]; exact he, rfl, rfl⟩


/-- C8, as stated, fails. With the flush interval 5, `LoadDataInsert(t, "a", 1)`
followed by `LoadDataInsert(t, "x")` leaves the table `t` with `columnCount` 2
and a buffer of 3 values, and 3 is not a multiple of 2; and for the table with
the empty name the same two calls leave `columnCount` 2 after the first and 1
after the second. -/
theorem C8_counterexample :
    ((State.run (quietEnv false) ⟨emptyWorld, Open 5⟩
        [.insert "t" [.str "a", .int 1], .insert "t" [.str "x"]]).db.loadDataInserts "t" =
      some ⟨"t", "/srv/app/data/t.dat", 2, 2, [.str "a", .int 1, .str "x"]⟩ ∧ ¬ 2 ∣ 3) ∧
    ((State.run (quietEnv false) ⟨emptyWorld, Open 5⟩
        [.insert "" [.str "a", .int 1]]).db.loadDataInserts "" =
      some ⟨"", "/srv/app/data/.dat", 1, 2, [.str "a", .int 1]⟩ ∧
     (State.run (quietEnv false) ⟨emptyWorld, Open 5⟩
        [.insert "" [.str "a", .int 1], .insert "" [.str "x"]]).db.loadDataInserts "" =
      some ⟨"", "/srv/app/data/.dat", 2, 1, [.str "a", .int 1, .str "x"]⟩) := by
  decide

/-- C8, amended. Buffer-width invariant: in every state reached from the `DB`
that `Open` returns by calls of `LoadDataInsert` and flushes in which every row
queued for a table has the width `width` gives for that table, every record has
that width as `columnCount`, and the length of its `bindParams` is a multiple of
`columnCount`.  The first call of `LoadDataInsert` for a table sets `columnCount`
to the number of its arguments, and once a record has a name (which it has after
that call unless the name of the table is empty) no call changes its
`columnCount`. -/
theorem C8_buffer_width :
    (∀ (env : Env) (N : Nat) (w0 : World) (ops : List Op) (width : String → Nat),
      (∀ t p, Op.insert t p ∈ ops → p.length = width t) →
      ∀ t e, (State.run env ⟨w0, Open N⟩ ops).db.loadDataInserts t = some e →
        e.columnCount = width t ∧ e.columnCount ∣ e.bindParams.length) ∧
    (∀ (env : Env) (s : State) (t : String) (p : List Value),
      s.db.loadDataInserts t = none →
      ∃ e, (s.insert env t p).db.loadDataInserts t = some e ∧ e.table = t ∧
        e.columnCount = p.length) ∧
    (∀ (env : Env) (s : State) (op : Op) (t : String) (e : loadDataInsert),
      s.db.loadDataInserts t = some e → e.table ≠ "" →
      ∃ e1, (s.step env op).db.loadDataInserts t = some e1 ∧ e1.table = e.table ∧
        e1.columnCount = e.columnCount) := by
  refine ⟨?_, ?_, ?_⟩
  · intro env N w0 ops width hops t e he
    have h0 : widthInv width ⟨w0, Open N⟩ := by
      intro k e hk
      simp [Open] at hk
    obtain ⟨_, h2, h3⟩ := widthInv_run env width ops ⟨w0, Open N⟩ hops h0 t e he
    exact ⟨h2, by rw [h2]; exact h3⟩
  · intro env s t p hnone
    obtain ⟨e1, h1, h2, h3, _, _⟩ := LoadDataInsert_record env t p s.world s.db
    simp only [hnone, Option.getD_none, newLoadDataInsert, if_true] at h2 h3
    exact ⟨e1, by rw [insert_db, h1, DB.store_same], h2, h3⟩
  · intro env s op t e he hn
    exact columnCount_step env s op t e he hn

/-- C8, amended, at a concrete input: rows of width 2 for the table `t` and a
row of width 1 for the table `u`, with the flush interval 5. -/
theorem C8_buffer_width_witness :
    (State.run (quietEnv false) ⟨emptyWorld, Open 5⟩
        [.insert "t" [.str "a", .int 1], .insert "u" [.str "x"],
          .insert "t" [.str "b", .int 2]]).db.loadDataInserts "t" =
      some ⟨"t", "/srv/app/data/t.dat", 2, 2, [.str "a", .int 1, .str "b", .int 2]⟩ ∧
    (2 = (fun t => if t = "t" then 2 else 1) "t" ∧ 2 ∣ 4) :=
  ⟨by decide,
    C8_buffer_width.1 (quietEnv false) 5 emptyWorld
      [.insert "t" [.str "a", .int 1], .insert "u" [.str "x"], .insert "t" [.str "b", .int 2]]
      (fun t => if t = "t" then 2 else 1)
      (by
        intro t p h
        simp only [List.mem_cons, Op.insert.injEq, List.mem_singleton, List.not_mem_nil,
          or_false] at h
        rcases h with ⟨rfl, rfl⟩ | ⟨rfl, rfl⟩ | ⟨rfl, rfl⟩ <;> decide)
      "t" ⟨"t", "/srv/app/data/t.dat", 2, 2, [.str "a", .int 1, .str "b", .int 2]⟩ (by decide)⟩

/-! ## Calls for different tables -/

/-- A flush to disk changes no node but the one at the path of the record. -/
theorem flushLoadDataToDisk_frame (env : Env) (w : World) (inp : loadDataInsert) (q : String)
    (hq : q ≠ inp.dataFilePath) :
    (flushLoadDataToDisk env w inp).2.1.nodes q = w.nodes q := by
  unfold flushLoadDataToDisk flushLoadDataToDisk.write fileWrite osCreate osOpenFile osStat
  by_cases hp : inp.dataFilePath = ""
  · simp [hp]
  · cases hs : env.statErr inp.dataFilePath <;>
      rcases hn : w.nodes inp.dataFilePath with _ | (c | _) <;>
      cases hc : env.createErr inp.dataFilePath <;> cases ho : env.openErr inp.dataFilePath <;>
      cases hw : env.appendOnlyWritable <;>
      simp [hp, hs, hn, hc, ho, hw, World.put, hq, O_APPEND]

/-- A flush to disk gives the session no statement. -/
theorem flushLoadDataToDisk_execLog (env : Env) (w : World) (inp : loadDataInsert) :
    (flushLoadDataToDisk env w inp).2.1.execLog = w.execLog := by
  unfold flushLoadDataToDisk flushLoadDataToDisk.write fileWrite osCreate osOpenFile osStat
  by_cases hp : inp.dataFilePath = ""
  · simp [hp]
  · cases hs : env.statErr inp.dataFilePath <;>
      rcases hn : w.nodes inp.dataFilePath with _ | (c | _) <;>
      cases hc : env.createErr inp.dataFilePath <;> cases ho : env.openErr inp.dataFilePath <;>
      cases hw : env.appendOnlyWritable <;>
      simp [hp, hs, hn, hc, ho, hw, World.put, O_APPEND]

/-- A flush to disk with the empty path changes nothing in the world. -/
theorem flushLoadDataToDisk_empty_path (env : Env) (w : World) (inp : loadDataInsert)
    (hp : inp.dataFilePath = "") : (flushLoadDataToDisk env w inp).2.1 = w := by
  simp [flushLoadDataToDisk, osStat, osCreate, hp]

/-- What a flush to disk returns, the record it leaves and the node it leaves at
the path of the record depend on the world only through the node at that
path. -/
theorem flushLoadDataToDisk_local (env : Env) (w w1 : World) (inp : loadDataInsert)
    (h : w.nodes inp.dataFilePath = w1.nodes inp.dataFilePath) :
    (flushLoadDataToDisk env w inp).1 = (flushLoadDataToDisk env w1 inp).1 ∧
      (flushLoadDataToDisk env w inp).2.2 = (flushLoadDataToDisk env w1 inp).2.2 ∧
      (flushLoadDataToDisk env w inp).2.1.nodes inp.dataFilePath =
        (flushLoadDataToDisk env w1 inp).2.1.nodes inp.dataFilePath := by
  unfold flushLoadDataToDisk flushLoadDataToDisk.write fileWrite osCreate osOpenFile osStat
  by_cases hp : inp.dataFilePath = ""
  · rw [hp] at h
    simp [hp, h]
  · cases hs : env.statErr inp.dataFilePath <;>
      rcases hn : w1.nodes inp.dataFilePath with _ | (c | _) <;>
      cases hc : env.createErr inp.dataFilePath <;> cases ho : env.openErr inp.dataFilePath <;>
      cases hw : env.appendOnlyWritable <;>
      simp [hp, hs, h, hn, hc, ho, hw, World.put, O_APPEND]


/-- What a flush to disk returns and the record it leaves do not depend on the
world when the path of the record is empty. -/
theorem flushLoadDataToDisk_local_empty (env : Env) (w w1 : World) (inp : loadDataInsert)
    (hp : inp.dataFilePath = "") :
    (flushLoadDataToDisk env w inp).1 = (flushLoadDataToDisk env w1 inp).1 ∧
      (flushLoadDataToDisk env w inp).2.2 = (flushLoadDataToDisk env w1 inp).2.2 := by
  simp [flushLoadDataToDisk, osStat, osCreate, hp]

theorem dataDirErr_congr (env : Env) (cur : String) (w w1 : World)
    (h : w.nodes (dataDir cur) = w1.nodes (dataDir cur)) :
    dataDirErr env cur w = dataDirErr env cur w1 := by
  simp [dataDirErr, osStat, h]

/-- Lines 21-51 of `LoadDataInsert`: a record with a name goes on to lines 53-60
as it is; for a record without name the call fails with the error of the data
directory, or goes on to lines 53-60 in a world that differs at most in the data
directory, which can be used from then on. -/
theorem LoadDataInsert_normal (env : Env) (cur t : String) (p : List Value) (w : World)
    (d : DB) (hcur : env.args0Dir = .ok cur) :
    (((d.loadDataInserts t).getD newLoadDataInsert).table ≠ "" →
      LoadDataInsert env t p w d =
        LoadDataInsert.queue env t p w d ((d.loadDataInserts t).getD newLoadDataInsert)) ∧
    (((d.loadDataInserts t).getD newLoadDataInsert).table = "" →
      (∀ err, dataDirErr env cur w = some err →
        LoadDataInsert env t p w d =
          (some err, w, d.store t
            { (d.loadDataInserts t).getD newLoadDataInsert with
              table := t, columnCount := p.length })) ∧
      (dataDirErr env cur w = none →
        ∃ w1, LoadDataInsert env t p w d =
            LoadDataInsert.queue env t p w1 d
              { (d.loadDataInserts t).getD newLoadDataInsert with
                table := t, columnCount := p.length, dataFilePath := stagingPath cur t } ∧
          (∀ q, q ≠ dataDir cur → w1.nodes q = w.nodes q) ∧ w1.execLog = w.execLog ∧
          dataDirErr env cur w1 = none)) := by
  refine ⟨fun h => by simp [LoadDataInsert, h], fun h => ⟨?_, ?_⟩⟩
  · intro err herr
    unfold dataDirErr at herr
    simp only [LoadDataInsert, h, if_true, hcur]
    cases hs : osStat env w (dataDir cur) with
    | ok info =>
      rw [hs] at herr
      simp only at herr ⊢
      split at herr
      · cases herr
      · rename_i hd
        cases herr
        simp [hd]
    | error se =>
      rw [hs] at herr
      cases se with
      | notExist =>
        simp only at herr ⊢
        simp [osMkdirAll, herr]
      | other e1 =>
        simp only at herr ⊢
        cases herr
        rfl
  · intro hnone
    unfold dataDirErr at hnone
    simp only [LoadDataInsert, h, if_true, hcur]
    cases hs : osStat env w (dataDir cur) with
    | ok info =>
      rw [hs] at hnone
      simp only at hnone ⊢
      split at hnone
      · rename_i hd
        refine ⟨w, by simp [hd], fun _ _ => rfl, rfl, ?_⟩
        unfold dataDirErr
        rw [hs]
        simp [hd]
      · cases hnone
    | error se =>
      rw [hs] at hnone
      cases se with
      | notExist =>
        simp only at hnone ⊢
        refine ⟨w.put (dataDir cur) (some .dir), by simp [osMkdirAll, hnone],
          fun q hq => World.put_nodes_other _ _ _ _ hq, rfl, ?_⟩
        have hst : env.statErr (dataDir cur) = none := by
          unfold osStat at hs
          simp only [dataDir_ne_empty, if_false] at hs
          cases h1 : env.statErr (dataDir cur) with
          | none => rfl
          | some e1 => rw [h1] at hs; cases hs
        simp [dataDirErr, osStat, dataDir_ne_empty, hst, World.put_nodes_same]
      | other e1 =>
        simp only at hnone
        cases hnone


/-- Lines 53-60 change no node but the one at the path of the record, give the
session no statement, keep the flush interval and the records of the other
tables, and change nothing in the world when the path of the record is
empty. -/
theorem queue_frame (env : Env) (t : String) (p : List Value) (w : World) (d : DB)
    (e : loadDataInsert) :
    (∀ q, q ≠ e.dataFilePath → (LoadDataInsert.queue env t p w d e).2.1.nodes q = w.nodes q) ∧
      (e.dataFilePath = "" → (LoadDataInsert.queue env t p w d e).2.1 = w) ∧
      (LoadDataInsert.queue env t p w d e).2.1.execLog = w.execLog ∧
      (LoadDataInsert.queue env t p w d e).2.2.flushInterval = d.flushInterval ∧
      (∀ k, k ≠ t → (LoadDataInsert.queue env t p w d e).2.2.loadDataInserts k =
        d.loadDataInserts k) := by
  unfold LoadDataInsert.queue
  simp only
  split
  · refine ⟨fun q hq => flushLoadDataToDisk_frame env w _ q hq,
      fun hp => flushLoadDataToDisk_empty_path env w _ hp,
      flushLoadDataToDisk_execLog env w _, rfl, fun k hk => DB.store_other _ _ _ _ hk⟩
  · exact ⟨fun _ _ => rfl, fun _ => rfl, rfl, rfl, fun k hk => DB.store_other _ _ _ _ hk⟩

/-- What lines 53-60 return, the record they store and the node they leave at
the path of the record depend on the state only through the flush interval and
the node at that path. -/
theorem queue_local (env : Env) (t : String) (p : List Value) (w w1 : World) (d d1 : DB)
    (e : loadDataInsert) (hN : d.flushInterval = d1.flushInterval)
    (h : e.dataFilePath = "" ∨ w.nodes e.dataFilePath = w1.nodes e.dataFilePath) :
    (LoadDataInsert.queue env t p w d e).1 = (LoadDataInsert.queue env t p w1 d1 e).1 ∧
      (LoadDataInsert.queue env t p w d e).2.2.loadDataInserts t =
        (LoadDataInsert.queue env t p w1 d1 e).2.2.loadDataInserts t ∧
      (w.nodes e.dataFilePath = w1.nodes e.dataFilePath →
        (LoadDataInsert.queue env t p w d e).2.1.nodes e.dataFilePath =
          (LoadDataInsert.queue env t p w1 d1 e).2.1.nodes e.dataFilePath) := by
  unfold LoadDataInsert.queue
  simp only [hN]
  generalize he1 : ({ e with insertCtr := (e.insertCtr + 1) % 2 ^ 64,
                             bindParams := e.bindParams ++ p } : loadDataInsert) = e1
  have hp1 : e.dataFilePath = e1.dataFilePath := by rw [← he1]
  rw [hp1] at h ⊢
  split
  · have h12 : (flushLoadDataToDisk env w e1).1 = (flushLoadDataToDisk env w1 e1).1 ∧
        (flushLoadDataToDisk env w e1).2.2 = (flushLoadDataToDisk env w1 e1).2.2 := by
      rcases h with h | h
      · exact flushLoadDataToDisk_local_empty env w w1 _ h
      · exact ⟨(flushLoadDataToDisk_local env w w1 _ h).1,
          (flushLoadDataToDisk_local env w w1 _ h).2.1⟩
    refine ⟨h12.1, ?_, fun hn => (flushLoadDataToDisk_local env w w1 e1 hn).2.2⟩
    show (d.store t _).loadDataInserts t = (d1.store t _).loadDataInserts t
    rw [DB.store_same, DB.store_same, h12.2]
  · refine ⟨rfl, ?_, fun hn => hn⟩
    show (d.store t _).loadDataInserts t = (d1.store t _).loadDataInserts t
    rw [DB.store_same, DB.store_same]

theorem getD_path (cur t : String) (d : DB) (hd : pathsOwn cur d) :
    ((d.loadDataInserts t).getD newLoadDataInsert).dataFilePath = "" ∨
      ((d.loadDataInserts t).getD newLoadDataInsert).dataFilePath = stagingPath cur t := by
  cases h : d.loadDataInserts t with
  | none => exact Or.inl rfl
  | some e => exact hd t e h

/-- A call of `LoadDataInsert` for a table changes no node but the data
directory and the staging file of the table, keeps the error of the data
directory, the flush interval and the records of the other tables, and gives the
session no statement. -/
theorem LoadDataInsert_frame (env : Env) (cur t : String) (p : List Value) (w : World) (d : DB)
    (hcur : env.args0Dir = .ok cur) (hd : pathsOwn cur d) :
    (∀ q, q ≠ dataDir cur → q ≠ stagingPath cur t →
        (LoadDataInsert env t p w d).2.1.nodes q = w.nodes q) ∧
      dataDirErr env cur (LoadDataInsert env t p w d).2.1 = dataDirErr env cur w ∧
      (LoadDataInsert env t p w d).2.1.execLog = w.execLog ∧
      (LoadDataInsert env t p w d).2.2.flushInterval = d.flushInterval ∧
      (∀ k, k ≠ t → (LoadDataInsert env t p w d).2.2.loadDataInserts k = d.loadDataInserts k) := by
  obtain ⟨hn1, hn2⟩ := LoadDataInsert_normal env cur t p w d hcur
  have hdd : dataDir cur ≠ stagingPath cur t := fun e => stagingPath_ne_dataDir cur t e.symm
  by_cases h0 : ((d.loadDataInserts t).getD newLoadDataInsert).table = ""
  · obtain ⟨hn3, hn4⟩ := hn2 h0
    cases herr : dataDirErr env cur w with
    | some err =>
      rw [hn3 err herr]
      exact ⟨fun _ _ _ => rfl, herr, rfl, rfl, fun k hk => DB.store_other _ _ _ _ hk⟩
    | none =>
      obtain ⟨w1, h1, h2, h3, h4⟩ := hn4 herr
      rw [h1]
      obtain ⟨f1, _, f3, f4, f5⟩ := queue_frame env t p w1 d
        { (d.loadDataInserts t).getD newLoadDataInsert with
          table := t, columnCount := p.length, dataFilePath := stagingPath cur t }
      refine ⟨fun q hq1 hq2 => by rw [f1 q hq2, h2 q hq1], ?_, by rw [f3, h3], f4, f5⟩
      rw [dataDirErr_congr env cur _ w1 (f1 _ hdd), h4]
  · rw [hn1 h0]
    obtain ⟨f1, f2, f3, f4, f5⟩ := queue_frame env t p w d
      ((d.loadDataInserts t).getD newLoadDataInsert)
    rcases getD_path cur t d hd with hp | hp
    · rw [f2 hp]
      exact ⟨fun _ _ _ => rfl, rfl, rfl, f4, f5⟩
    · rw [hp] at f1
      exact ⟨fun q _ hq2 => f1 q hq2, dataDirErr_congr env cur _ w (f1 _ hdd), f3, f4, f5⟩


/-- What a call of `LoadDataInsert` for a table returns, the record it stores for
the table and the node it leaves at the path of the table's staging file depend
on the state only through the flush interval, the record of the table, the node
at that path and the error of the data directory. -/
theorem LoadDataInsert_local (env : Env) (cur t : String) (p : List Value) (w w1 : World)
    (d d1 : DB) (hcur : env.args0Dir = .ok cur) (hd : pathsOwn cur d)
    (hN : d.flushInterval = d1.flushInterval)
    (hm : d.loadDataInserts t = d1.loadDataInserts t)
    (hn : w.nodes (stagingPath cur t) = w1.nodes (stagingPath cur t))
    (he : dataDirErr env cur w = dataDirErr env cur w1) :
    (LoadDataInsert env t p w d).1 = (LoadDataInsert env t p w1 d1).1 ∧
      (LoadDataInsert env t p w d).2.2.loadDataInserts t =
        (LoadDataInsert env t p w1 d1).2.2.loadDataInserts t ∧
      (LoadDataInsert env t p w d).2.1.nodes (stagingPath cur t) =
        (LoadDataInsert env t p w1 d1).2.1.nodes (stagingPath cur t) := by
  obtain ⟨a1, a2⟩ := LoadDataInsert_normal env cur t p w d hcur
  obtain ⟨b1, b2⟩ := LoadDataInsert_normal env cur t p w1 d1 hcur
  have hpath := getD_path cur t d hd
  rw [← hm] at b1 b2
  have hdd : stagingPath cur t ≠ dataDir cur := stagingPath_ne_dataDir cur t
  by_cases h0 : ((d.loadDataInserts t).getD newLoadDataInsert).table = ""
  · obtain ⟨a3, a4⟩ := a2 h0
    obtain ⟨b3, b4⟩ := b2 h0
    cases herr : dataDirErr env cur w with
    | some err =>
      rw [a3 err herr, b3 err (he ▸ herr)]
      exact ⟨rfl, by simp [DB.store], hn⟩
    | none =>
      obtain ⟨v, c1, c2, _, _⟩ := a4 herr
      obtain ⟨v1, e1, e2, _, _⟩ := b4 (he ▸ herr)
      rw [c1, e1]
      have hv : v.nodes (stagingPath cur t) = v1.nodes (stagingPath cur t) := by
        rw [c2 _ hdd, e2 _ hdd, hn]
      obtain ⟨g1, g2, g3⟩ := queue_local env t p v v1 d d1
        { (d.loadDataInserts t).getD newLoadDataInsert with
          table := t, columnCount := p.length, dataFilePath := stagingPath cur t } hN (Or.inr hv)
      exact ⟨g1, g2, g3 hv⟩
  · rw [a1 h0, b1 h0]
    rcases hpath with hp | hp
    · obtain ⟨g1, g2, _⟩ := queue_local env t p w w1 d d1
        ((d.loadDataInserts t).getD newLoadDataInsert) hN (Or.inl hp)
      refine ⟨g1, g2, ?_⟩
      rw [(queue_frame env t p w d _).2.1 hp, (queue_frame env t p w1 d1 _).2.1 hp, hn]
    · rw [← hp] at hn ⊢
      obtain ⟨g1, g2, g3⟩ := queue_local env t p w w1 d d1
        ((d.loadDataInserts t).getD newLoadDataInsert) hN (Or.inr hn)
      exact ⟨g1, g2, g3 hn⟩

/-- A call of `LoadDataInsert` keeps `pathsOwn`. -/
theorem pathsOwn_insert (env : Env) (cur t : String) (p : List Value) (w : World) (d : DB)
    (hcur : env.args0Dir = .ok cur) (hd : pathsOwn cur d) :
    pathsOwn cur (LoadDataInsert env t p w d).2.2 := by
  obtain ⟨e1, h1, _, _, h4, _⟩ := LoadDataInsert_record env t p w d
  intro k e hk
  rw [h1] at hk
  by_cases hkt : k = t
  · subst hkt
    rw [DB.store_same] at hk
    cases hk
    rcases h4 with h | ⟨c, hc, h⟩
    · rw [h]; exact getD_path cur k d hd
    · rw [hcur] at hc
      cases hc
      exact Or.inr h
  · rw [DB.store_other _ _ _ _ hkt] at hk
    exact hd k e hk

theorem pathsOwn_insertCalls (env : Env) (cur : String) (hcur : env.args0Dir = .ok cur)
    (calls : List (String × List Value)) (s : State) (hs : pathsOwn cur s.db) :
    pathsOwn cur (insertCalls env calls s).db := by
  induction calls generalizing s with
  | nil => exact hs
  | cons c cs ih => exact ih _ (pathsOwn_insert env cur c.1 c.2 s.world s.db hcur hs)

/-- The view of a table after a call for another table whose staging file is
another file is the view before the call. -/
theorem tableView_insert_other (env : Env) (cur a b : String) (p : List Value) (s : State)
    (hcur : env.args0Dir = .ok cur) (hs : pathsOwn cur s.db) (hab : b ≠ a)
    (hp : stagingPath cur b ≠ stagingPath cur a) :
    tableView env cur b (s.insert env a p) = tableView env cur b s := by
  obtain ⟨f1, f2, _, f4, f5⟩ := LoadDataInsert_frame env cur a p s.world s.db hcur hs
  simp only [tableView, State.insert, f4, f5 b hab, f1 _ (stagingPath_ne_dataDir cur b) hp, f2]

/-- Two states with the same view of a table have the same view of the table
after the same call for that table, and the call returns the same in both. -/
theorem tableView_insert_same (env : Env) (cur b : String) (p : List Value) (s s1 : State)
    (hcur : env.args0Dir = .ok cur) (hs : pathsOwn cur s.db) (hs1 : pathsOwn cur s1.db)
    (hv : tableView env cur b s = tableView env cur b s1) :
    tableView env cur b (s.insert env b p) = tableView env cur b (s1.insert env b p) ∧
      s.insertErr env b p = s1.insertErr env b p := by
  simp only [tableView, Prod.mk.injEq] at hv
  obtain ⟨v1, v2, v3, v4⟩ := hv
  obtain ⟨g1, g2, g3⟩ := LoadDataInsert_local env cur b p s.world s1.world s.db s1.db hcur hs
    v1 v2 v3 v4
  obtain ⟨_, f2, _, f4, _⟩ := LoadDataInsert_frame env cur b p s.world s.db hcur hs
  obtain ⟨_, k2, _, k4, _⟩ := LoadDataInsert_frame env cur b p s1.world s1.db hcur hs1
  refine ⟨?_, g1⟩
  simp only [tableView, State.insert, f4, k4, v1, g2, g3, f2, k2, v4]


/-- The view of a table after calls for tables whose names have no separator is
its view after the calls for the table alone. -/
theorem tableView_insertCalls (env : Env) (cur b : String) (hcur : env.args0Dir = .ok cur)
    (hb : plainName b) (calls : List (String × List Value))
    (hcalls : ∀ c ∈ calls, plainName c.1) (s s1 : State) (hs : pathsOwn cur s.db)
    (hs1 : pathsOwn cur s1.db) (hv : tableView env cur b s = tableView env cur b s1) :
    tableView env cur b (insertCalls env calls s) =
      tableView env cur b (insertCalls env (calls.filter (fun c => c.1 = b)) s1) := by
  induction calls generalizing s s1 with
  | nil => exact hv
  | cons c cs ih =>
    have hcs : ∀ x ∈ cs, plainName x.1 := fun x hx => hcalls x (by simp [hx])
    by_cases hc : c.1 = b
    · have e1 : insertCalls env (c :: cs) s = insertCalls env cs (s.insert env b c.2) := by
        rw [← hc]; rfl
      have e2 : insertCalls env ((c :: cs).filter (fun c => c.1 = b)) s1 =
          insertCalls env (cs.filter (fun c => c.1 = b)) (s1.insert env b c.2) := by
        simp [List.filter_cons, hc, insertCalls]
      rw [e1, e2]
      exact ih hcs _ _ (pathsOwn_insert env cur b c.2 s.world s.db hcur hs)
        (pathsOwn_insert env cur b c.2 s1.world s1.db hcur hs1)
        (tableView_insert_same env cur b c.2 s s1 hcur hs hs1 hv).1
    · have e1 : insertCalls env (c :: cs) s = insertCalls env cs (s.insert env c.1 c.2) := rfl
      have e2 : insertCalls env ((c :: cs).filter (fun c => c.1 = b)) s1 =
          insertCalls env (cs.filter (fun c => c.1 = b)) s1 := by
        simp [List.filter_cons, hc]
      rw [e1, e2]
      refine ih hcs _ _ (pathsOwn_insert env cur c.1 c.2 s.world s.db hcur hs) hs1 ?_
      rw [tableView_insert_other env cur c.1 b c.2 s hcur hs (fun e => hc e.symm)
        (stagingPath_injective cur b c.1 hb (hcalls c (by simp)) (fun e => hc e.symm))]
      exact hv

theorem pathsOwn_Open (cur : String) (N : Nat) : pathsOwn cur (Open N) := by
  intro k e hk
  simp [Open] at hk

/-- C7, as stated, fails: the table names `./t` and `t` are different and have
the same staging file, and with the flush interval 1 a call of `LoadDataInsert`
for `./t` in an empty file system creates the staging file of `t`. -/
theorem C7_counterexample :
    "./t" ≠ "t" ∧ stagingPath "/srv/app" "./t" = stagingPath "/srv/app" "t" ∧
    emptyWorld.nodes (stagingPath "/srv/app" "t") = none ∧
    ((⟨emptyWorld, Open 1⟩ : State).insert (quietEnv false) "./t" [.str "x"]).world.nodes
      (stagingPath "/srv/app" "t") = some (.file "x\t\n") := by
  decide

/-- C7, amended. Independent tables: for two different table names `a` and `b`
without path separator, the two staging files are different files; in every
state reached from the `DB` that `Open` returns by calls of `LoadDataInsert`, a
call for `a` leaves the record of `b` and the staging file of `b` as they are;
and after any interleaving of calls for tables whose names have no separator,
the record of `b` and the staging file of `b` are what the calls for `b` alone,
in their order, leave. -/
theorem C7_independent_tables (env : Env) (cur : String) (hcur : env.args0Dir = .ok cur)
    (N : Nat) (w0 : World) (a b : String) (ha : plainName a) (hb : plainName b) (hab : a ≠ b)
    (calls : List (String × List Value)) :
    stagingPath cur a ≠ stagingPath cur b ∧
    (∀ p : List Value,
      ((insertCalls env calls ⟨w0, Open N⟩).insert env a p).db.loadDataInserts b =
        (insertCalls env calls ⟨w0, Open N⟩).db.loadDataInserts b ∧
      ((insertCalls env calls ⟨w0, Open N⟩).insert env a p).world.nodes (stagingPath cur b) =
        (insertCalls env calls ⟨w0, Open N⟩).world.nodes (stagingPath cur b)) ∧
    ((∀ c ∈ calls, plainName c.1) →
      (insertCalls env calls ⟨w0, Open N⟩).db.loadDataInserts b =
        (insertCalls env (calls.filter (fun c => c.1 = b)) ⟨w0, Open N⟩).db.loadDataInserts b ∧
      (insertCalls env calls ⟨w0, Open N⟩).world.nodes (stagingPath cur b) =
        (insertCalls env (calls.filter (fun c => c.1 = b)) ⟨w0, Open N⟩).world.nodes
          (stagingPath cur b)) := by
  have hne : stagingPath cur b ≠ stagingPath cur a :=
    stagingPath_injective cur b a hb ha (fun e => hab e.symm)
  refine ⟨fun e => hne e.symm, fun p => ?_, fun hcalls => ?_⟩
  · have hs := pathsOwn_insertCalls env cur hcur calls ⟨w0, Open N⟩ (pathsOwn_Open cur N)
    have h := tableView_insert_other env cur a b p _ hcur hs (fun e => hab e.symm) hne
    simp only [tableView, Prod.mk.injEq] at h
    exact ⟨h.2.1, h.2.2.1⟩
  · have h := tableView_insertCalls env cur b hcur hb calls hcalls ⟨w0, Open N⟩ ⟨w0, Open N⟩
      (pathsOwn_Open cur N) (pathsOwn_Open cur N) rfl
    simp only [tableView, Prod.mk.injEq] at h
    exact ⟨h.2.1, h.2.2.1⟩

/-- C7, amended, at a concrete input: calls for the tables `a` and `b`
interleaved, with the flush interval 2, in an empty file system. -/
theorem C7_independent_tables_witness :
    stagingPath "/srv/app" "a" ≠ stagingPath "/srv/app" "b" ∧
    (insertCalls (quietEnv false)
        [("a", [.str "x"]), ("b", [.str "y"]), ("a", [.str "z"]), ("b", [.str "w"])]
        ⟨emptyWorld, Open 2⟩).world.nodes (stagingPath "/srv/app" "b") =
      (insertCalls (quietEnv false) [("b", [.str "y"]), ("b", [.str "w"])]
        ⟨emptyWorld, Open 2⟩).world.nodes (stagingPath "/srv/app" "b") :=
  have h := C7_independent_tables (quietEnv false) "/srv/app" rfl 2 emptyWorld "a" "b"
    (by unfold plainName; decide) (by unfold plainName; decide) (by decide)
    [("a", [.str "x"]), ("b", [.str "y"]), ("a", [.str "z"]), ("b", [.str "w"])]
  ⟨h.1, (h.2.2 (by unfold plainName; decide)).2⟩

/-! ## Flush cycles on one table -/

/-- A run of `N` rows from an empty buffer, with the flush interval `N`: the
first `N - 1` rows are queued and the last call flushes the `N` rows; `hflush`
says what that flush leaves. -/
theorem insertRows_cycle (env : Env) (cur t : String) (N c : Nat) (rows : List (List Value))
    (node node1 : Option Node) (s : State) (hs : tableAt env cur t N c 0 [] node s)
    (hlen : rows.length = N) (h1 : 1 ≤ N) (h64 : N < 2 ^ 64) (hrows : ∀ r ∈ rows, r.length = c)
    (hflush : ∀ (s1 : State) (j : Nat) (buf p : List Value), tableAt env cur t N c j buf node s1 →
      p.length = c → N ≤ j + 1 → j + 1 < 2 ^ 64 → buf ++ p = rows.flatten →
      tableAt env cur t N c 0 [] node1 (s1.insert env t p)) :
    tableAt env cur t N c 0 [] node1 (insertRows env t rows s) := by
  have hne : rows ≠ [] := by
    intro e; rw [e] at hlen; simp at hlen; omega
  have hsplit := List.dropLast_append_getLast hne
  have hl : rows.dropLast.length + 1 = N := by
    rw [List.length_dropLast, hlen]; omega
  have hq := (insertRows_queues env cur t N c h64 rows.dropLast
    (fun r hr => hrows r (List.mem_of_mem_dropLast hr)) 0 [] node s hs (by omega)).1
  simp only [Nat.zero_add, List.nil_append] at hq
  have hrun : insertRows env t rows s =
      (insertRows env t rows.dropLast s).insert env t (rows.getLast hne) := by
    have := insertRows_append env t rows.dropLast [rows.getLast hne] s
    rw [hsplit] at this
    exact this
  rw [hrun]
  refine hflush _ _ _ _ hq (hrows _ (List.getLast_mem hne)) (by omega) (by omega) ?_
  have := congrArg List.flatten hsplit
  rw [List.flatten_append] at this
  rw [← this]
  simp

/-- Two flush cycles, for every flush interval `N ≥ 1`: after `2 * N` rows
queued for a table that had no record and no staging file, the staging file
holds the rows of both cycles where a descriptor opened with `os.O_APPEND` alone
accepts writes, and the rows of the first cycle only where it does not. -/
theorem insertRows_two_cycles (env : Env) (cur t : String) (c : Nat)
    (rows1 rows2 : List (List Value)) (s : State) (hready : dirReady env cur s.world)
    (hcreate : env.createErr (stagingPath cur t) = none)
    (hst : env.statErr (stagingPath cur t) = none) (hop : env.openErr (stagingPath cur t) = none)
    (hN : s.db.flushInterval = rows1.length) (h2 : rows2.length = rows1.length)
    (h1 : 1 ≤ rows1.length) (h64 : rows1.length < 2 ^ 64) (hc : 1 ≤ c)
    (hrows1 : ∀ r ∈ rows1, r.length = c) (hrows2 : ∀ r ∈ rows2, r.length = c)
    (hfresh : s.db.loadDataInserts t = none)
    (hnofile : s.world.nodes (stagingPath cur t) = none) :
    (insertRows env t (rows1 ++ rows2) s).world.nodes (stagingPath cur t) =
        some (.file (if env.appendOnlyWritable then rowsText rows1 ++ rowsText rows2
          else rowsText rows1)) ∧
      (insertRows env t (rows1 ++ rows2) s).db.loadDataInserts t =
        some ⟨t, stagingPath cur t, 0, c, []⟩ := by
  have h0 : tableAt env cur t rows1.length c 0 [] none s :=
    ⟨hready, hN, hnofile, Or.inl ⟨hfresh, rfl, rfl⟩⟩
  have hA := insertRows_cycle env cur t rows1.length c rows1 none
    (some (.file (rowsText rows1))) s h0 rfl h1 h64 hrows1
    (fun s1 j buf p hs1 hp hj hj64 hbuf => by
      have := (insert_flush_create env cur t rows1.length c j buf s1 p hs1 hp hj hj64 hcreate).2.1
      rw [hbuf, writeParams_rows c hc rows1 hrows1] at this
      simpa using this)
  have hB := insertRows_cycle env cur t rows1.length c rows2 (some (.file (rowsText rows1)))
    (some (.file (if env.appendOnlyWritable then rowsText rows1 ++ rowsText rows2
      else rowsText rows1))) (insertRows env t rows1 s) hA h2 h1 h64 hrows2
    (fun s1 j buf p hs1 hp hj hj64 hbuf => by
      have := (insert_flush_exists env cur t rows1.length c j buf (rowsText rows1) s1 p hs1 hp hj
        hj64 hst hop).2.1
      rw [hbuf, writeParams_rows c hc rows2 hrows2] at this
      simpa using this)
  rw [insertRows_append]
  refine ⟨hB.2.2.1, ?_⟩
  rcases hB.2.2.2 with ⟨hnone, _, _⟩ | h
  · exfalso
    have hne : rows2 ≠ [] := by
      intro e; rw [e] at h2; simp at h2; omega
    have hsplit := List.dropLast_append_getLast hne
    have hrun := insertRows_append env t rows2.dropLast [rows2.getLast hne] (insertRows env t rows1 s)
    rw [hsplit] at hrun
    rw [hrun] at hnone
    obtain ⟨e1, g1, _⟩ := LoadDataInsert_record env t (rows2.getLast hne)
      (insertRows env t rows2.dropLast (insertRows env t rows1 s)).world
      (insertRows env t rows2.dropLast (insertRows env t rows1 s)).db
    simp only [insertRows, insert_db, g1, DB.store_same] at hnone
    cases hnone
  · exact h

/-! ## The statement of `flushLoadData` -/

/-- With at most `n` backslashes in the text, `strings.Replace` with the count
`n` doubles every backslash. -/
theorem replaceFrom_backslash (l : List Char) (n : Nat) (h : l.count '\\' ≤ n) :
    replaceFrom ['\\'] ['\\', '\\'] l 0 (n : Int) =
      l.flatMap (fun ch => if ch = '\\' then ['\\', '\\'] else [ch]) := by
  induction l generalizing n with
  | nil => rfl
  | cons ch cs ih =>
    by_cases hch : ch = '\\'
    · subst hch
      simp only [List.count_cons_self] at h
      obtain ⟨m, rfl⟩ : ∃ m, n = m + 1 := ⟨n - 1, by omega⟩
      have hm := ih m (by omega)
      have hn0 : ((m + 1 : Nat) : Int) ≠ 0 := by omega
      have hsub : ((m + 1 : Nat) : Int) - 1 = (m : Int) := by omega
      simp only [replaceFrom, ne_eq, hn0, not_false_eq_true, List.isPrefixOf, beq_self_eq_true,
        Bool.and_self, and_self, if_true, List.length_singleton, Nat.sub_self, hsub, hm,
        List.flatMap_cons]
    · have hcnt : cs.count '\\' ≤ n := by
        rw [List.count_cons_of_ne (fun e => hch e.symm)] at h
        exact h
      have hpre : List.isPrefixOf ['\\'] (ch :: cs) = false := by
        simp [List.isPrefixOf, hch, Ne.symm hch]
      simp only [replaceFrom, hpre, Bool.false_eq_true, and_false, if_false, ih n hcnt,
        List.flatMap_cons, hch]
      rfl

/-- For a path with at most 20 backslashes the statement of line 118 is the
statement with every backslash doubled. -/
theorem loadQuery_few_backslashes (inp : loadDataInsert)
    (h : inp.dataFilePath.data.count '\\' ≤ 20) :
    loadQuery inp = specLoadQuery inp.dataFilePath inp.table := by
  have := replaceFrom_backslash inp.dataFilePath.data 20 h
  unfold loadQuery specLoadQuery stringsReplace escapeBackslashes
  rw [show ("\\" : String).data = ['\\'] from rfl, show ("\\\\" : String).data = ['\\', '\\'] from rfl]
  rw [show ((20 : Nat) : Int) = 20 from rfl] at this
  rw [this]


/-- The load of a table whose staging file exists and whose buffer holds rows:
the buffer is emptied; the file the statement can read holds the prior content
followed by the buffered rows where a descriptor opened with `os.O_APPEND` alone
accepts writes, and the prior content only where it does not; when the session
rejects the statement its error is returned and the file stays; when the
statement and the removal succeed no error is returned and the file is gone. -/
theorem flushLoadData_pending (env : Env) (w : World) (inp : loadDataInsert) (content : String)
    (rows : List (List Value)) (c : Nat) (hp : inp.dataFilePath ≠ "")
    (hfile : w.nodes inp.dataFilePath = some (.file content))
    (hst : env.statErr inp.dataFilePath = none) (hop : env.openErr inp.dataFilePath = none)
    (hctr : 0 < inp.insertCtr) (hc : 1 ≤ c) (hcc : inp.columnCount = c)
    (hrows : ∀ r ∈ rows, r.length = c) (hbuf : inp.bindParams = rows.flatten) :
    (flushLoadData env w inp).2.2 = { inp with bindParams := [], insertCtr := 0 } ∧
    seenAt inp.dataFilePath (flushLoadData env w inp).2.1.execLog =
      seenAt inp.dataFilePath w.execLog ++
        [(loadQuery inp, some (.file (if env.appendOnlyWritable then content ++ rowsText rows
          else content)))] ∧
    (∀ e, env.execErr (loadQuery inp) = some e →
      (flushLoadData env w inp).1 = some e ∧
      (flushLoadData env w inp).2.1.nodes inp.dataFilePath =
        some (.file (if env.appendOnlyWritable then content ++ rowsText rows else content))) ∧
    (env.execErr (loadQuery inp) = none → env.removeErr inp.dataFilePath = none →
      (flushLoadData env w inp).1 = none ∧
      (flushLoadData env w inp).2.1.nodes inp.dataFilePath = none) := by
  have htext : writeParams inp.columnCount inp.bindParams 0 "" = rowsText rows := by
    rw [hcc, hbuf, writeParams_rows c hc rows hrows]
    simp
  have hfl := flushLoadDataToDisk_exists env w inp content hp hfile hst hop
  rw [htext] at hfl
  have hq : loadQuery { inp with bindParams := [], insertCtr := 0 } = loadQuery inp := rfl
  cases hw : env.appendOnlyWritable <;> cases hx : env.execErr (loadQuery inp) <;>
    cases hr : env.removeErr inp.dataFilePath <;>
    simp [flushLoadData, hctr, hfl, hw, osStat, hp, hst, hfile, World.put, dbExec, hq, hx,
      osRemove, hr, seenAt]


/-- The load of a table that has no staging file yet and whose buffer holds
rows: the file is created with the buffered rows before the statement is given
to the session, and the buffer is emptied. -/
theorem flushLoadData_unflushed (env : Env) (w : World) (inp : loadDataInsert)
    (rows : List (List Value)) (c : Nat) (hp : inp.dataFilePath ≠ "")
    (habs : w.nodes inp.dataFilePath = none)
    (hcr : env.createErr inp.dataFilePath = none) (hst : env.statErr inp.dataFilePath = none)
    (hctr : 0 < inp.insertCtr) (hc : 1 ≤ c) (hcc : inp.columnCount = c)
    (hrows : ∀ r ∈ rows, r.length = c) (hbuf : inp.bindParams = rows.flatten) :
    (flushLoadData env w inp).2.2 = { inp with bindParams := [], insertCtr := 0 } ∧
    seenAt inp.dataFilePath (flushLoadData env w inp).2.1.execLog =
      seenAt inp.dataFilePath w.execLog ++ [(loadQuery inp, some (.file (rowsText rows)))] ∧
    (∀ e, env.execErr (loadQuery inp) = some e →
      (flushLoadData env w inp).1 = some e ∧
      (flushLoadData env w inp).2.1.nodes inp.dataFilePath = some (.file (rowsText rows))) ∧
    (env.execErr (loadQuery inp) = none → env.removeErr inp.dataFilePath = none →
      (flushLoadData env w inp).1 = none ∧
      (flushLoadData env w inp).2.1.nodes inp.dataFilePath = none) := by
  have htext : writeParams inp.columnCount inp.bindParams 0 "" = rowsText rows := by
    rw [hcc, hbuf, writeParams_rows c hc rows hrows]
    simp
  have hfl := flushLoadDataToDisk_create env w inp hp habs hcr
  rw [htext] at hfl
  have hq : loadQuery { inp with bindParams := [], insertCtr := 0 } = loadQuery inp := rfl
  cases hx : env.execErr (loadQuery inp) <;> cases hr : env.removeErr inp.dataFilePath <;>
    simp [flushLoadData, hctr, hfl, osStat, hp, hst, World.put, dbExec, hq, hx, osRemove, hr,
      seenAt]

/-- The load of a table whose rows have all been flushed: the statement is given
to the session with the staging file as it is; when the session rejects it its
error is returned and the file stays as it is; when the statement and the
removal succeed no error is returned and the file is gone.  The record is
unchanged. -/
theorem flushLoadData_flushed (env : Env) (w : World) (inp : loadDataInsert) (node : Node)
    (hp : inp.dataFilePath ≠ "") (hfile : w.nodes inp.dataFilePath = some node)
    (hst : env.statErr inp.dataFilePath = none) (hctr : inp.insertCtr = 0) :
    (flushLoadData env w inp).2.2 = inp ∧
    seenAt inp.dataFilePath (flushLoadData env w inp).2.1.execLog =
      seenAt inp.dataFilePath w.execLog ++ [(loadQuery inp, some node)] ∧
    (∀ e, env.execErr (loadQuery inp) = some e →
      (flushLoadData env w inp).1 = some e ∧
      (flushLoadData env w inp).2.1.nodes inp.dataFilePath = some node) ∧
    (env.execErr (loadQuery inp) = none → env.removeErr inp.dataFilePath = none →
      (flushLoadData env w inp).1 = none ∧
      (flushLoadData env w inp).2.1.nodes inp.dataFilePath = none) := by
  have hstat : ∃ i, osStat env w inp.dataFilePath = .ok i := by
    cases node <;> simp [osStat, hp, hst, hfile]
  obtain ⟨i, hi⟩ := hstat
  cases hx : env.execErr (loadQuery inp) <;> cases hr : env.removeErr inp.dataFilePath <;>
    simp [flushLoadData, hctr, hi, hfile, World.put, dbExec, hx, osRemove, hp, hr, seenAt]

/-! ## The connection string of `OpenPostgres` and `OpenOracle` -/

theorem stringsSplit_empty : stringsSplit "" ',' = [""] := by
  decide

/-- What lines 236-254 of `OpenPostgres` do with a connection string, by the
number of its comma-separated fields: fewer than four, the error of the field
count check; exactly four, the check passes and the read of `dbFields[4]` is out
of range; five or more, all five reads are in range and a `Myconnection` is
filled. -/
theorem OpenPostgres_connection_cases (s : String) :
    ((stringsSplit s ',').length < 4 →
      OpenPostgres.connection s = some (.error "invalid connection string format")) ∧
    ((stringsSplit s ',').length = 4 →
      (stringsSplit s ',')[4]? = none ∧ OpenPostgres.connection s = none) ∧
    (5 ≤ (stringsSplit s ',').length → ∃ c, OpenPostgres.connection s = some (.ok c)) := by
  refine ⟨fun h => by simp [OpenPostgres.connection, h], fun h => ?_, fun h => ?_⟩
  · unfold OpenPostgres.connection
    simp only
    rcases hl : stringsSplit s ',' with _ | ⟨f0, _ | ⟨f1, _ | ⟨f2, _ | ⟨f3, _ | ⟨f4, r⟩⟩⟩⟩⟩ <;>
      rw [hl] at h <;> simp at h
    simp
  · have hs : s ≠ "" := by
      intro e
      rw [e, stringsSplit_empty] at h
      simp at h
    unfold OpenPostgres.connection
    simp only
    rcases hl : stringsSplit s ',' with _ | ⟨f0, _ | ⟨f1, _ | ⟨f2, _ | ⟨f3, _ | ⟨f4, r⟩⟩⟩⟩⟩ <;>
      rw [hl] at h <;> simp at h
    simp only [hs, List.length_cons, List.getElem?_cons_zero, List.getElem?_cons_succ,
      Option.pure_def, Option.bind_eq_bind, Option.some_bind, if_false]
    rw [if_neg (by omega)]
    exact ⟨_, rfl⟩

/-- What lines 234-252 of `OpenOracle` do with a connection string, by the number
of its comma-separated fields; as for `OpenPostgres`. -/
theorem OpenOracle_connection_cases (s : String) :
    ((stringsSplit s ',').length < 4 →
      oracle.OpenOracle.connection s = some (.error "invalid connection string format")) ∧
    ((stringsSplit s ',').length = 4 →
      (stringsSplit s ',')[4]? = none ∧ oracle.OpenOracle.connection s = none) ∧
    (5 ≤ (stringsSplit s ',').length → ∃ c, oracle.OpenOracle.connection s = some (.ok c)) := by
  refine ⟨fun h => by simp [oracle.OpenOracle.connection, h], fun h => ?_, fun h => ?_⟩
  · unfold oracle.OpenOracle.connection
    simp only
    rcases hl : stringsSplit s ',' with _ | ⟨f0, _ | ⟨f1, _ | ⟨f2, _ | ⟨f3, _ | ⟨f4, r⟩⟩⟩⟩⟩ <;>
      rw [hl] at h <;> simp at h
    simp
  · have hs : s ≠ "" := by
      intro e
      rw [e, stringsSplit_empty] at h
      simp at h
    unfold oracle.OpenOracle.connection
    simp only
    rcases hl : stringsSplit s ',' with _ | ⟨f0, _ | ⟨f1, _ | ⟨f2, _ | ⟨f3, _ | ⟨f4, r⟩⟩⟩⟩⟩ <;>
      rw [hl] at h <;> simp at h
    simp only [hs, List.length_cons, List.getElem?_cons_zero, List.getElem?_cons_succ,
      Option.pure_def, Option.bind_eq_bind, Option.some_bind, if_false]
    rw [if_neg (by omega)]
    exact ⟨_, rfl⟩

/-- C11 at its failing input. The connection string
`dbconnect=10.1.8.182,5432,nksnms,netka` has four comma-separated fields: it
passes the field count check `len(dbFields) < 4` of `OpenPostgres` and of
`OpenOracle`, the index 4 is out of range in its fields, and both functions
panic at the read of `dbFields[4]` instead of returning an error or reading five
fields. -/
theorem C11_four_fields_out_of_range :
    (stringsSplit "dbconnect=10.1.8.182,5432,nksnms,netka" ',') =
      ["dbconnect=10.1.8.182", "5432", "nksnms", "netka"] ∧
    ¬ (stringsSplit "dbconnect=10.1.8.182,5432,nksnms,netka" ',').length < 4 ∧
    (stringsSplit "dbconnect=10.1.8.182,5432,nksnms,netka" ',')[4]? = none ∧
    OpenPostgres.connection "dbconnect=10.1.8.182,5432,nksnms,netka" = none ∧
    oracle.OpenOracle.connection "dbconnect=10.1.8.182,5432,nksnms,netka" = none :=
  ⟨by decide, by decide, by decide, rfl, rfl⟩

end sqlserver
